import Mathlib

/-!
Verification development for the clarity-js capture/replay core.

We give a shallow embedding of the relevant source files:
  * `src/src/layout/dom.ts`              — the node registry (namespace `ClarityDom`)
  * `src/src/plugins/layout/states/element.ts` — attribute/layout capture (namespace `CaptureEl`)
  * `src/decode/render.ts`               — the reconstructor (namespace `Replay`)
  * `src/unnamed/part_000`               — the counter tracker (namespace `Metrics`)

JavaScript objects used as integer-keyed dictionaries are embedded as
association lists with prepend-shadowing update (`lookupA` / `updateA`):
lookup returns the most recent binding, exactly matching the mutable
JS semantics observationally.  Live DOM inputs (WeakMap id resolution,
`nextSibling` walks, `getBoundingClientRect`, computed styles) are passed
as already-resolved parameters, since they are reads of the host
environment performed before the registry logic runs.
-/

namespace ClarityAux

/-- Lookup in an association list: first binding for the key wins. -/
def lookupA {α : Type} (l : List (Nat × α)) (k : Nat) : Option α :=
  (l.find? (fun p => p.1 == k)).map (·.2)

/-- Dictionary write `d[k] = v`, embedded as prepend-shadowing. -/
def updateA {α : Type} (l : List (Nat × α)) (k : Nat) (v : α) : List (Nat × α) :=
  (k, v) :: l

/-- In-place mutation of the entry at `k` (no-op when absent, mirroring a
read-modify-write on an existing JS object). -/
def modifyA {α : Type} (l : List (Nat × α)) (k : Nat) (f : α → α) : List (Nat × α) :=
  match lookupA l k with
  | some v => updateA l k (f v)
  | none => l

/-- String lookup in an attribute map (a JS `{string: string}` object). -/
def lookupS (l : List (String × String)) (k : String) : Option String :=
  (l.find? (fun p => p.1 == k)).map (·.2)

/-- Key-presence test: JS `key in obj`. -/
def hasKeyS (l : List (String × String)) (k : String) : Bool :=
  (lookupS l k).isSome

/-- JS `String.prototype.indexOf(sub) >= 0` on lists of characters. -/
def subAt (sub : List Char) : List Char → Bool
  | [] => sub.isEmpty
  | c :: rest => sub.isPrefixOf (c :: rest) || subAt sub rest

/-- JS `s.indexOf(sub) >= 0`: `sub` occurs somewhere inside `s`. -/
def strContains (s sub : String) : Bool :=
  subAt sub.toList s.toList

/-- JS `Array.prototype.splice(start, 0, x)`: insert `x` at index `start`,
clamped to the array length (JS clamps an out-of-range start to `length`). -/
def jsSplice {α : Type} (l : List α) (start : Nat) (x : α) : List α :=
  l.take start ++ x :: l.drop start

end ClarityAux

namespace ClarityDom

open ClarityAux

/-- `Source` enum from `@clarity-types/layout`. -/
inductive Source where
  | discover
  | childListAdd
  | childListRemove
  | attributes
  | characterData
  deriving DecidableEq, Repr

/-- `NodeInfo` capture snapshot (`data` field of a registry record).
Fields that are optional keys on the JS object are embedded as `Option`
(`none` = key absent).  `path` is only ever filled at flush time. -/
structure NodeData where
  tag : String
  attributes : Option (List (String × String)) := none
  value : Option String := none
  path : Option String := none
  deriving DecidableEq, Repr

/-- `metadata` sub-record of a `NodeValue`. -/
structure MetaData where
  active : Bool
  boxmodel : Bool
  masked : Bool
  deriving DecidableEq, Repr

/-- `NodeValue` registry record from `@clarity-types/layout`. -/
structure NodeValue where
  id : Nat
  parent : Option Nat
  next : Option Nat
  children : List Nat
  position : Option Nat
  data : NodeData
  selector : String
  region : Option String
  metadata : MetaData
  deriving DecidableEq, Repr

/-- One entry of the per-id diagnostic history (`NodeChange`). -/
structure ChangeRec where
  time : Nat
  source : Source
  value : NodeValue
  deriving DecidableEq, Repr

/-- The module-level mutable state of `src/src/layout/dom.ts`:
`index`, `values`, `updateMap`, `selectorMap`, `changes`, `urlMap`, plus
the devtools-hook flag (`Constant.DEVTOOLS_HOOK in window`) and the
environment clock read by `time()`. -/
structure DomState where
  index : Nat
  values : List (Nat × NodeValue)
  updateMap : List Nat
  selectorMap : List Nat
  changes : List (Nat × List ChangeRec)
  urlMap : List (String × Nat)
  devtools : Bool
  now : Nat
  deriving DecidableEq, Repr

/-- `values[id]` lookup. -/
def getValueOf (st : DomState) (i : Nat) : Option NodeValue :=
  lookupA st.values i

/-- `BLACKLIST_TYPES` from dom.ts. -/
def BLACKLIST_TYPES : List String := ["password", "hidden", "email"]

/-- `BLACKLIST_NAMES` from dom.ts. -/
def BLACKLIST_NAMES : List String :=
  ["address", "cell", "code", "dob", "email", "mobile", "name", "phone",
   "secret", "social", "ssn", "tel", "zip"]

/-- `Constant.TAG_INPUT`. -/
def TAG_INPUT : String := "INPUT"

/-- `Constant.NAME_ATTRIBUTE`. -/
def NAME_ATTRIBUTE : String := "name"

/-- `Constant.TYPE_ATTRIBUTE`. -/
def TYPE_ATTRIBUTE : String := "type"

/-- `Constant.ID_ATTRIBUTE`. -/
def ID_ATTRIBUTE : String := "id"

/-- `Constant.CLASS_ATTRIBUTE`. -/
def CLASS_ATTRIBUTE : String := "class"

/-- `Constant.MASK_ATTRIBUTE` (explicit mask override). -/
def MASK_ATTRIBUTE : String := "data-clarity-mask"

/-- `Constant.UNMASK_ATTRIBUTE` (explicit unmask override). -/
def UNMASK_ATTRIBUTE : String := "data-clarity-unmask"

/-- `mask(data, masked)` from dom.ts: masking policy for one node.
Returns the resolved masked flag given the inherited/default one. -/
def mask (data : NodeData) (masked : Bool) : Bool :=
  match data.attributes with
  | none => masked
  | some attributes =>
    let tag := data.tag.toUpper
    -- blacklist name substrings, only when not already masked
    let m1 :=
      if masked = false && tag == TAG_INPUT && hasKeyS attributes NAME_ATTRIBUTE then
        let value := ((lookupS attributes NAME_ATTRIBUTE).getD "").toLower
        if BLACKLIST_NAMES.any (fun n => strContains value n) then true else masked
      else masked
    -- blacklist types
    let m2 :=
      if hasKeyS attributes TYPE_ATTRIBUTE &&
         BLACKLIST_TYPES.contains ((lookupS attributes TYPE_ATTRIBUTE).getD "") then
        true
      else m1
    -- explicit overrides, checked last
    let m3 := if hasKeyS attributes MASK_ATTRIBUTE then true else m2
    let m4 := if hasKeyS attributes UNMASK_ATTRIBUTE then false else m3
    m4

/-- `Constant.CLARITY_REGION_ATTRIBUTE`. -/
def REGION_ATTRIBUTE : String := "data-clarity-region"

/-- `Constant.HREF_ATTRIBUTE`. -/
def HREF_ATTRIBUTE : String := "href"

/-- `Constant.SRC_ATTRIBUTE`. -/
def SRC_ATTRIBUTE : String := "src"

/-- `Constant.SRCSET_ATTRIBUTE`. -/
def SRCSET_ATTRIBUTE : String := "srcset"

/-- `Constant.DATA_PREFIX` (data-URI scheme marker). -/
def DATA_START : String := "data:"

/-- `config.lean` flag (external config collaborator; value irrelevant to the claims). -/
def cfgLeanFlag : Bool := false

/-- `values[i] = v`. -/
def setValue (st : DomState) (i : Nat) (v : NodeValue) : DomState :=
  { st with values := updateA st.values i v }

/-- Read-modify-write of `values[i]` (no-op when the entry is absent). -/
def modifyValue (st : DomState) (i : Nat) (f : NodeValue → NodeValue) : DomState :=
  match getValueOf st i with
  | some v => setValue st i (f v)
  | none => st

/-- JS `Array.prototype.indexOf`: index of first occurrence, `-1` when absent. -/
def jsIndexOfAux (x : Nat) : List Nat → Nat → Int
  | [], _ => -1
  | y :: rest, i => if y == x then (i : Int) else jsIndexOfAux x rest (i + 1)

/-- JS `arr.indexOf(x)`. -/
def jsIndexOf (l : List Nat) (x : Nat) : Int :=
  jsIndexOfAux x l 0

/-- Modelled from the spec: `src/layout/selector.ts` is not under `src/`.
Spec §4.2: "Builds one path segment from tag, attribute map, and a position
index, prefixed with the parent's selector joined by `>` (null parent ⇒ no
prefix)."  The segment is the tag, with an nth-of-type suffix when a position
index is supplied. -/
def selector (tag : String) (pfx : Option String) (attributes : Option (List (String × String)))
    (pos : Option Nat) : String :=
  let seg := match pos with
    | some p => tag ++ ":nth-of-type(" ++ toString p ++ ")"
    | none => tag
  (pfx.getD "") ++ seg

/-- `position(parent, child)` from dom.ts: fills `child.position` (single-step
lookback nth-of-type approximation) and returns the resulting position.
`sibling.position + 1` on a JS `null` position yields `1`, embedded via
`getD 0`. -/
def positionFn (st : DomState) (parent : Option NodeValue) (child : NodeValue) :
    NodeValue × Option Nat :=
  let tag := child.data.tag
  let hasClassName := child.data.attributes.isSome &&
    !(hasKeyS (child.data.attributes.getD []) CLASS_ATTRIBUTE)
  match parent with
  | some pv =>
    if (tag == "DIV" || tag == "TR" || tag == "P" || tag == "LI" || tag == "UL") || hasClassName then
      let child1 := { child with position := some 1 }
      let idx := jsIndexOf pv.children child1.id
      -- while (idx-- > 0) { sibling = values[children[idx]]; if same tag, inherit; break }
      let child2 :=
        if idx > 0 then
          match (pv.children.get? (idx - 1).toNat).bind (getValueOf st) with
          | some sibling =>
            if child1.data.tag == sibling.data.tag then
              { child1 with position := some ((sibling.position.getD 0) + 1) }
            else child1
          | none => child1
        else child1
      (child2, child2.position)
    else (child, child.position)
  | none => (child, child.position)

/-- `value.parent && value.parent in values ? values[value.parent] : null`
(JS truthiness: a null or zero parent id yields no parent). -/
def resolveParent (st : DomState) (parent? : Option Nat) : Option NodeValue :=
  match parent? with
  | some p => if p == 0 then none else getValueOf st p
  | none => none

/-- `updateSelector(value)` from dom.ts, operating on `values[i]`. -/
def updateSelector (st : DomState) (i : Nat) : DomState :=
  match getValueOf st i with
  | none => st
  | some value =>
    let parent : Option NodeValue := resolveParent st value.parent
    let pfx : Option String := parent.map (fun pv => pv.selector ++ ">")
    let ex := value.selector
    let pc := positionFn st parent value
    let current := selector pc.1.data.tag pfx pc.1.data.attributes pc.2
    let st1 :=
      if current ≠ ex && jsIndexOf st.selectorMap value.id == -1 then
        { st with selectorMap := st.selectorMap ++ [value.id] }
      else st
    setValue st1 i { pc.1 with selector := current }

/-- Modelled from the environment: `getFullUrl` resolves a relative URL against
the live document through an anchor element; URL strings pass through unchanged
in this embedding. -/
def getFullUrl (relative : String) : String := relative

/-- `urlMap[url] = id`. -/
def addUrl (st : DomState) (url : String) (id : Nat) : DomState :=
  { st with urlMap := (url, id) :: st.urlMap }

/-- The `VIDEO`/`AUDIO`/`LINK` arm of `metadata`: URL correlation for `href`,
`src` (skipping data URIs) and every `srcset` candidate. -/
def metadataUrls (st : DomState) (attributes : List (String × String)) (id : Nat) : DomState :=
  let href := (lookupS attributes HREF_ATTRIBUTE).getD ""
  let sa := hasKeyS attributes HREF_ATTRIBUTE && href.length > 0
  let stA := if sa then addUrl st (getFullUrl href) id else st
  let src := (lookupS attributes SRC_ATTRIBUTE).getD ""
  let stB :=
    if hasKeyS attributes SRC_ATTRIBUTE && src.length > 0 && !(src.startsWith DATA_START) then
      addUrl stA (getFullUrl src) id
    else stA
  let srcset := (lookupS attributes SRCSET_ATTRIBUTE).getD ""
  if hasKeyS attributes SRCSET_ATTRIBUTE && srcset.length > 0 then
    (srcset.splitOn ",").foldl (fun s u =>
      let parts := u.trim.splitOn " "
      if parts.length == 2 && (parts.headD "").length > 0 then
        addUrl s (getFullUrl (parts.headD "")) id
      else s) stB
  else stB

/-- `metadata(tag, id, parentId)` from dom.ts.  `inRegionMap` stands for the
environment-side `regionMap.has(nodes[id])` test. -/
def metadataFn (st : DomState) (tag : String) (id : Nat) (parentId? : Option Nat)
    (inRegionMap : Bool) : DomState :=
  if parentId?.isSome then
    match getValueOf st id with
    | none => st
    | some value =>
      let attributes := value.data.attributes.getD []
      let st1 :=
        if tag == "VIDEO" || tag == "AUDIO" || tag == "LINK" then
          metadataUrls st attributes id
        else if tag == "IFRAME" then
          if cfgLeanFlag == false then
            modifyValue st id (fun v =>
              { v with metadata := { v.metadata with boxmodel := true } })
          else st
        else st
      if inRegionMap then
        modifyValue st1 id (fun v =>
          { v with metadata := { v.metadata with boxmodel := true } })
      else st1
  else st

/-- `changes[id]` push used by `track` (creates the per-id list on demand). -/
def pushChange (l : List (Nat × List ChangeRec)) (id : Nat) (c : ChangeRec) :
    List (Nat × List ChangeRec) :=
  match lookupA l id with
  | some cs => updateA l id (cs ++ [c])
  | none => updateA l id [c]

/-- The pending-queue bookkeeping of `track`: a re-added id moves to the
tail (`splice` + `push`); an unseen changed id is appended. -/
def trackQueue (st : DomState) (id : Nat) (source : Source) (changed : Bool) : DomState :=
  let uIndex := jsIndexOf st.updateMap id
  if uIndex ≥ 0 && source == Source.childListAdd then
    { st with updateMap := (st.updateMap.erase id) ++ [id] }
  else if uIndex == -1 && changed then
    { st with updateMap := st.updateMap ++ [id] }
  else st

/-- The devtools-gated history append of `track` (a deep copy of the current
record with the time and source). -/
def trackHistoryStep (st : DomState) (id : Nat) (source : Source) : DomState :=
  if st.devtools then
    match getValueOf st id with
    | some v => { st with changes := pushChange st.changes id { time := st.now, source, value := v } }
    | none => st
  else st

/-- `track(id, source, changed)` from dom.ts: pending-queue bookkeeping plus
the devtools-gated history append. -/
def track (st : DomState) (id : Nat) (source : Source) (changed : Bool := true) : DomState :=
  trackHistoryStep (trackQueue st id source changed) id source

/-- The parent-inheritance step of `add`:
`if (parentId >= 0 && values[parentId])` — a JS null parent id coerces to 0
and passes the `>= 0` test, but `values[null]` is undefined, so the branch
runs exactly when the parent id points at a registered entry.  Appends the
child id to the parent child list and yields the inherited region and masked
flag (or the defaults `nodeRegion` and `true`). -/
def addInherit (st : DomState) (id : Nat) (parentId? : Option Nat)
    (nodeRegion : Option String) : DomState × Option String × Bool :=
  match parentId? with
  | some p =>
    match getValueOf st p with
    | some pv =>
      (setValue st p { pv with children := pv.children ++ [id] },
       (if nodeRegion == none then pv.region else nodeRegion),
       pv.metadata.masked)
    | none => (st, nodeRegion, true)
  | none => (st, nodeRegion, true)

/-- `add(node, parent, data, source)` from dom.ts.  The live-DOM reads are
passed resolved: `nodeId?` is the WeakMap id of the node (autogeneration
allocates `index`), `parentId?` is `parent ? getId(parent) : null`, `nextId?`
is `getNextId(node)`, and `nodeRegion` is the `regionMap` entry for the node.
The shadow-root rediscovery scheduling is an external-collaborator call and
has no registry effect here. -/
def add (st0 : DomState) (nodeId? parentId? nextId? : Option Nat) (data : NodeData)
    (nodeRegion : Option String) (source : Source) : DomState :=
  -- getId(node, true)
  let idSt : Nat × DomState :=
    match nodeId? with
    | some i => (i, st0)
    | none => (st0.index, { st0 with index := st0.index + 1 })
  let id := idSt.1
  let st := idSt.2
  -- if (parentId >= 0 && values[parentId]) { push child; inherit region/masked }
  let inh : DomState × Option String × Bool := addInherit st id parentId? nodeRegion
  let st1 := inh.1
  let region := inh.2.1
  let masked := mask data inh.2.2
  -- CLARITY_REGION_ATTRIBUTE writes the environment regionMap before metadata runs
  let inRegionMap := nodeRegion.isSome ||
    (data.attributes.isSome && hasKeyS (data.attributes.getD []) REGION_ATTRIBUTE)
  let st2 := setValue st1 id
    { id, parent := parentId?, next := nextId?, children := [], position := none,
      data, selector := "", region,
      metadata := { active := true, boxmodel := false, masked } }
  let st3 := updateSelector st2 id
  let st4 := metadataFn st3 data.tag id parentId? inRegionMap
  track st4 id source

/-- `attributes`-field deep diff used by `diff(a, b, "attributes")`:
key-by-key comparison in both directions. -/
def attrsDiffer (a b : List (String × String)) : Bool :=
  a.any (fun p => lookupS b p.1 ≠ some p.2) || b.any (fun p => lookupS a p.1 ≠ some p.2)

/-- `for (let key in data) if (diff(value.data, data, key)) value.data[key] = data[key]`:
the per-key merge loop of `update`.  Keys of the incoming snapshot are its
present fields (`tag` always; optional fields when `some`). -/
def mergeData (old new : NodeData) : NodeData × Bool :=
  let r1 : NodeData × Bool :=
    if old.tag ≠ new.tag then ({ old with tag := new.tag }, true) else (old, false)
  let r2 : NodeData × Bool :=
    match new.attributes with
    | some na =>
      match r1.1.attributes with
      | some oa =>
        if attrsDiffer oa na then ({ r1.1 with attributes := some na }, true) else (r1.1, r1.2)
      | none => ({ r1.1 with attributes := some na }, true)
    | none => r1
  let r3 : NodeData × Bool :=
    match new.value with
    | some nv => if r2.1.value ≠ some nv then ({ r2.1 with value := some nv }, true) else r2
    | none => r2
  match new.path with
  | some np => if r3.1.path ≠ some np then ({ r3.1 with path := some np }, true) else r3
  | none => r3

/-- `remove(id, source)` from dom.ts, fuel-indexed: the JS recursion is
unbounded, so any fuel dominating the longest simple child chain reproduces
it exactly.  Deactivates the entry, records the change, recurses into the
child list captured on entry, then empties the (possibly updated) entry's
child list. -/
def removeFuel : Nat → DomState → Nat → Source → DomState
  | 0, st, _, _ => st
  | fuel + 1, st, id, source =>
    match getValueOf st id with
    | none => st
    | some value =>
      let st1 := setValue st id
        { value with metadata := { value.metadata with active := false }, parent := none }
      let st2 := track st1 id source
      let st3 := value.children.foldl (fun s c => removeFuel fuel s c source) st2
      modifyValue st3 id (fun v => { v with children := [] })

/-- The exported `remove` entry point: `st.index` bounds every id the registry
ever allocated, hence dominates any simple child chain. -/
def removeU (st : DomState) (id : Nat) (source : Source) : DomState :=
  removeFuel st.index st id source

/-- The reparent insertion of `update`: splice into the new parent's child
list at index `nextId + 1` (the *node id* of the resolved next sibling, not
its list position), or push when there is no next sibling. -/
def reparentInsert (st : DomState) (p : Nat) (nextId? : Option Nat) (id : Nat) : DomState :=
  match nextId? with
  | some n => modifyValue st p (fun pv => { pv with children := jsSplice pv.children (n + 1) id })
  | none => modifyValue st p (fun pv => { pv with children := pv.children ++ [id] })

/-- The region re-derivation after a move:
`value.region = regionMap.has(node) ? regionMap.get(node) : values[parentId].region`. -/
def reparentRegion (st : DomState) (p : Nat) (id : Nat) (nodeRegion : Option String) : DomState :=
  modifyValue st id (fun v =>
    { v with region :=
        match nodeRegion with
        | some r => some r
        | none => ((getValueOf st p).map (fun x => x.region)).getD none })

/-- The old-parent cleanup of `update`: remove the first occurrence of `id`
from the old parent's child list (`indexOf` + `splice`). -/
def detachOld (st : DomState) (oldParentId : Option Nat) (id : Nat) : DomState :=
  match oldParentId with
  | some q => modifyValue st q (fun qv => { qv with children := qv.children.erase id })
  | none => st

/-- The key-by-key data merge of `update`, applied in place to `values[id]`. -/
def mergeInto (st : DomState) (id : Nat) (data : NodeData) : DomState :=
  modifyValue st id (fun vNow => { vNow with data := (mergeData vNow.data data).1 })

/-- Whether the data merge changed anything (`diff` hits in the key loop). -/
def mergeChanged (st : DomState) (id : Nat) (data : NodeData) : Bool :=
  match getValueOf st id with
  | some vNow => (mergeData vNow.data data).2
  | none => false

/-- `update(node, parent, data, source)` from dom.ts, with live-DOM reads
passed resolved exactly as in `add`. -/
def update (st0 : DomState) (nodeId? parentId? nextId? : Option Nat) (data : NodeData)
    (nodeRegion : Option String) (source : Source) : DomState :=
  match nodeId? with
  | none => st0
  | some id =>
    match getValueOf st0 id with
    | none => st0
    | some value0 =>
      -- value.metadata.active = true
      let v1 := { value0 with metadata := { value0.metadata with active := true } }
      -- internal ordering change (writing the id back when it is unchanged
      -- is the identity, so the write is unconditional here)
      let changed1 := v1.next ≠ nextId?
      let v2 := { v1 with next := nextId? }
      -- parent change
      let parentChanged := v2.parent ≠ parentId?
      let oldParentId := v2.parent
      let v3 := if parentChanged then { v2 with parent := parentId? } else v2
      let stA := setValue st0 id v3
      let stB :=
        if parentChanged then
          let stMove :=
            match parentId? with
            | some p => reparentRegion (reparentInsert stA p nextId? id) p id nodeRegion
            | none => removeU stA id source
          detachOld stMove oldParentId id
        else stA
      -- data merge
      let changedD := mergeChanged stB id data
      let stC := mergeInto stB id data
      let stD := updateSelector stC id
      let stE := metadataFn stD data.tag id parentId? nodeRegion.isSome
      track stE id source (changed1 || parentChanged || changedD)

/-- One iteration of the `updates()` drain loop: computes and stores the
`path` field of `values[i]`.  `p in updateMap` on a JS array is an *index*
presence test, i.e. `p < updateMap.length`. -/
def flushStep (st : DomState) (i : Nat) : DomState :=
  match getValueOf st i with
  | none => st
  | some v =>
    let p := v.parent
    let hasId := v.data.attributes.isSome && hasKeyS (v.data.attributes.getD []) ID_ATTRIBUTE
    let cond := p == none ||
      (match p with
       | some pp => decide (pp < st.updateMap.length)
       | none => true) ||
      hasId || v.selector.length == 0
    let newPath : Option String :=
      if cond then none
      else
        match p with
        | some pp => (getValueOf st pp).map (·.selector)
        | none => none
    setValue st i { v with data := { v.data with path := newPath } }

/-- `updates()` from dom.ts: drains the pending queue, filling `path` for each
record, returns the drained records and clears the queue. -/
def updates (st : DomState) : List NodeValue × DomState :=
  let st1 := st.updateMap.foldl flushStep st
  let output := st.updateMap.filterMap (fun i => getValueOf st1 i)
  (output, { st1 with updateMap := [] })

/-- `history(id)` diagnostic accessor. -/
def history (st : DomState) (id : Nat) : List ChangeRec :=
  match lookupA st.changes id with
  | some cs => cs
  | none => []

/-- The module state right after `reset()`: counter at 1, everything empty.
The devtools hook flag and the environment clock are host inputs. -/
def resetState : DomState :=
  { index := 1, values := [], updateMap := [], selectorMap := [], changes := [],
    urlMap := [], devtools := false, now := 0 }

end ClarityDom

namespace CaptureEl

open ClarityAux

/-- Computed-style readout for one element (`window.getComputedStyle`),
restricted to the properties the capture inspects. -/
structure Computed where
  color : String
  backgroundColor : String
  backgroundImage : String
  overflowX : String
  overflowY : String
  visibility : String
  deriving DecidableEq, Repr

/-- `getBoundingClientRect` result.  The JS values are numbers subjected to
`Math.floor`/`Math.round`; the rounding is the identity on the integer
coordinates used here. -/
structure BRect where
  left : Int
  top : Int
  width : Int
  height : Int
  deriving DecidableEq, Repr

/-- The live element as the capture reads it: tag, raw attributes, scroll
offsets, optional render box, optional string-typed `value` property, computed
style, and the window scroll position. -/
structure ElemInput where
  tagName : String
  attributes : List (String × String)
  scrollLeft : Int
  scrollTop : Int
  rect : Option BRect
  valueProp : Option String
  computed : Computed
  pageXOffset : Int
  pageYOffset : Int
  deriving DecidableEq, Repr

/-- `INodeInfo` as used by this module: the unmask flag. -/
structure NodeInfoCap where
  unmask : Bool
  deriving DecidableEq, Repr

/-- `ILayoutRectangle`: document coordinates plus optional scroll offsets. -/
structure LayoutRect where
  x : Int
  y : Int
  width : Int
  height : Int
  scrollX : Option Int := none
  scrollY : Option Int := none
  deriving DecidableEq, Repr

/-- `ILayoutStyle`: sparse style-delta map (a key is present iff captured). -/
structure StyleSnap where
  visibility : Option String := none
  overflowX : Option String := none
  overflowY : Option String := none
  backgroundImage : Option String := none
  backgroundColor : Option String := none
  color : Option String := none
  deriving DecidableEq, Repr

/-- `IElementLayoutState`. -/
structure ElementLayoutState where
  tag : String
  attributes : Option (List (String × String)) := none
  layout : Option LayoutRect := none
  style : Option StyleSnap := none
  value : Option String := none
  deriving DecidableEq, Repr

/-- `Tags.Script`. -/
def TagScript : String := "SCRIPT"

/-- `Tags.Meta`. -/
def TagMeta : String := "META"

/-- Modelled from the spec: the `Tags.Ignore` marker ("Script/meta tags produce
only an 'ignore' marker"); `states/generic.ts` is not under `src/`. -/
def TagIgnore : String := "*IGNORE"

/-- Modelled from the spec: `createGenericLayoutState` (`states/generic.ts` is
not under `src/`) produces the base capture state carrying the tag. -/
def createGenericLayoutState (tagName : String) : ElementLayoutState :=
  { tag := tagName }

/-- Modelled from the spec: the `mask` utility (`@src/utils` is not under
`src/`) replaces a sensitive value by an irreversible masked representation;
embedded as same-length asterisks. -/
def maskStr (s : String) : String :=
  String.map (fun _ => Char.ofNat 42) s

/-- `DefaultAttributeMaskList`. -/
def DefaultAttributeMaskList : List String := ["value", "placeholder", "alt", "title"]

/-- `getAttributeValue(element, info, attrName)`:
masks the value of sensitive attributes unless the node is unmasked.
`attributeMaskList` is the module state set by `resetElementStateProvider`
(defaults plus `config.sensitiveAttributes`). -/
def getAttributeValue (attributeMaskList : List String) (el : ElemInput) (info : NodeInfoCap)
    (attrName : String) : String :=
  let sensitiveAttribute := attributeMaskList.contains attrName
  let maskAttribute := sensitiveAttribute && !info.unmask
  let attrValue := (lookupS el.attributes attrName).getD ""
  if maskAttribute then maskStr attrValue else attrValue

/-- `getAttributes(element, info)`. -/
def getAttributes (attributeMaskList : List String) (el : ElemInput) (info : NodeInfoCap) :
    List (String × String) :=
  el.attributes.map (fun p => (p.1, getAttributeValue attributeMaskList el info p.1))

/-- `getElementValue(element, info)`. -/
def getElementValue (el : ElemInput) (info : NodeInfoCap) : String :=
  let valueStr := el.valueProp.getD ""
  if info.unmask then valueStr else maskStr valueStr

/-- `getLayout(element)`: document coordinates from the viewport rect plus the
window scroll position (`Math.floor`/`Math.round` are the identity on the
integer coordinates of this embedding). -/
def getLayout (el : ElemInput) : Option LayoutRect :=
  el.rect.map (fun rect =>
    { x := rect.left + el.pageXOffset, y := rect.top + el.pageYOffset,
      width := rect.width, height := rect.height })

/-- `match(variable, values)` helper from element.ts. -/
def matchVal (v : String) (values : List String) : Bool :=
  values.contains v

/-- `getStyles(element)`: style deltas that deviate from defaults.  Threads the
module-level `defaultColor` (sampled once per session) and returns its updated
value alongside the snapshot (`null` when no delta was captured). -/
def getStyles (defaultColor : String) (c : Computed) : Option StyleSnap × String :=
  let dc := if defaultColor.length = 0 then c.color else defaultColor
  let style : StyleSnap :=
    { visibility := if matchVal c.visibility ["hidden", "collapse"] then some c.visibility else none,
      overflowX := if matchVal c.overflowX ["auto", "scroll", "hidden"] then some c.overflowX else none,
      overflowY := if matchVal c.overflowY ["auto", "scroll", "hidden"] then some c.overflowY else none,
      backgroundImage := if c.backgroundImage ≠ "none" then some c.backgroundImage else none,
      backgroundColor :=
        if !(matchVal c.backgroundColor ["rgba(0, 0, 0, 0)", "transparent"]) then
          some c.backgroundColor
        else none,
      color := if c.color ≠ dc then some c.color else none }
  let nonempty := style.visibility.isSome || style.overflowX.isSome || style.overflowY.isSome ||
    style.backgroundImage.isSome || style.backgroundColor.isSome || style.color.isSome
  (if nonempty then some style else none, dc)

/-- `createElementLayoutState(element, info)`.  Note the scroll-capture guard
is embedded exactly as written in the source:
`Styles.OverflowX in elementState.style || Styles.OverflowX in elementState.style`
(the same disjunct twice — `OverflowY` is never consulted). -/
def createElementLayoutState (attributeMaskList : List String) (defaultColor : String)
    (el : ElemInput) (info : NodeInfoCap) : ElementLayoutState × String :=
  let tagName := el.tagName
  let elementState := createGenericLayoutState tagName
  if tagName == TagScript || tagName == TagMeta then
    ({ elementState with tag := TagIgnore }, defaultColor)
  else
    let es1 := { elementState with attributes := some (getAttributes attributeMaskList el info) }
    let es2 := { es1 with layout := getLayout el }
    let gs := if es2.layout.isSome then getStyles defaultColor el.computed else (none, defaultColor)
    let es3 := { es2 with style := gs.1 }
    let es4 :=
      if es3.layout.isSome && es3.style.isSome &&
         (((es3.style.getD {}).overflowX).isSome || ((es3.style.getD {}).overflowX).isSome) then
        { es3 with layout := es3.layout.map (fun l =>
            { l with scrollX := some el.scrollLeft, scrollY := some el.scrollTop }) }
      else es3
    let es5 :=
      if el.valueProp.isSome then { es4 with value := some (getElementValue el info) } else es4
    (es5, gs.2)

end CaptureEl

namespace Replay

open ClarityAux

/-- `IDecodedNode`: one wire record consumed by the reconstructor. -/
structure DecodedNode where
  id : Nat
  parent : Option Nat := none
  next : Option Nat := none
  tag : String
  attributes : Option (List (String × String)) := none
  value : Option String := none
  deriving DecidableEq, Repr

/-- A node of the replay document: tag, namespace flag, attributes, text. -/
structure RNode where
  tag : String
  svg : Bool := false
  attrs : List (String × String) := []
  text : Option String := none
  deriving DecidableEq, Repr

/-- Observable DOM operations performed by the reconstructor, in order.
`warnOp` is the caught-exception log entry (node/parent/record context). -/
inductive ROp where
  | createOp (id : Nat) (tag : String)
  | attrsOp (id : Nat) (attrs : List (String × String))
  | textOp (id : Nat) (v : Option String)
  | insertOp (id : Nat) (parent : Nat) (next : Option Nat)
  | removeOp (id : Nat)
  | warnOp (id : Nat) (parent : Nat)
  | doctypeOp (name pubId sysId : String)
  | replaceRootOp (id : Nat)
  | baseOp (href : String)
  deriving DecidableEq, Repr

/-- The reconstructor state: its `nodes` id→node table, the attachment map of
the target document (node id → parent id; absent = detached), and the ordered
operation log. -/
structure RepState where
  nodes : List (Nat × RNode) := []
  par : List (Nat × Nat) := []
  log : List ROp := []
  deriving DecidableEq, Repr

/-- `element(nodeId)`: resolve an id to the replay node table
(`nodeId !== null && nodeId > 0 && nodeId in nodes`); the resolved live node is
identified by its table key. -/
def elementR (st : RepState) (nodeId? : Option Nat) : Option Nat :=
  match nodeId? with
  | some i => if i > 0 && (lookupA st.nodes i).isSome then some i else none
  | none => none

/-- Remove an attachment entry (JS `removeChild`). -/
def removeKeyN (l : List (Nat × Nat)) (k : Nat) : List (Nat × Nat) :=
  l.filter (fun p => p.1 ≠ k)

/-- `createElement(doc, tag, parent)`: SVG namespace for an `s:`-prefixed tag. -/
def createElementR (tag : String) : RNode :=
  { tag, svg := tag.startsWith "s:" }

/-- String-keyed dictionary write preserving JS key order (existing key keeps
its slot, a new key is appended). -/
def updateS (l : List (String × String)) (k v : String) : List (String × String) :=
  if (lookupS l k).isSome then
    l.map (fun p => if p.1 == k then (k, v) else p)
  else l ++ [(k, v)]

/-- `insert(data, parent, node, next)` from render.ts.  `oracle` models the
host DOM throwing from `insertBefore` on a structural anomaly for this record;
the `try/catch` turns that into a logged warning and nothing else.  The final
`nodes[data.id] = node` runs on every path. -/
def insertR (oracle : Nat → Bool) (d : DecodedNode) (parent? : Option Nat) (nodeVal : RNode)
    (next? : Option Nat) (st : RepState) : RepState :=
  let st1 :=
    match parent? with
    | some p =>
      -- next = next && next.parentElement !== parent ? null : next
      let next2 := match next? with
        | some nx => if lookupA st.par nx ≠ some p then none else some nx
        | none => none
      if oracle d.id then
        { st with log := st.log ++ [ROp.warnOp d.id p] }
      else
        { st with par := updateA st.par d.id p, log := st.log ++ [ROp.insertOp d.id p next2] }
    | none =>
      match lookupA st.par d.id with
      | some _ => { st with par := removeKeyN st.par d.id, log := st.log ++ [ROp.removeOp d.id] }
      | none => st
  { st1 with nodes := updateA st1.nodes d.id nodeVal }

/-- The `default:` arm of the `markup` switch: find-or-create, stamp the
`data-id` debug attribute onto the record, apply attributes, generic-insert. -/
def markupDefault (oracle : Nat → Bool) (st : RepState) (d : DecodedNode)
    (parent? next? : Option Nat) : RepState :=
  let found := lookupA st.nodes d.id
  let node0 := match found with
    | some n => n
    | none => createElementR d.tag
  let st1 := match found with
    | some _ => st
    | none => { st with log := st.log ++ [ROp.createOp d.id d.tag] }
  let d2 := { d with attributes := some (updateS (d.attributes.getD []) "data-id" (toString d.id)) }
  let node1 := { node0 with attrs := d2.attributes.getD [] }
  let st2 := { st1 with log := st1.log ++ [ROp.attrsOp d.id node1.attrs] }
  insertR oracle d2 parent? node1 next? st2

/-- One iteration of the `markup` record loop (the `switch` on the tag).
The `STYLE` case has no `break` in the source and falls through into the
`default:` case; the embedding composes the two accordingly. -/
def markupStep (oracle : Nat → Bool) (st : RepState) (d : DecodedNode) : RepState :=
  let parent? := elementR st d.parent
  let next? := elementR st d.next
  if d.tag == "*D" then
    { st with log := st.log ++ [ROp.doctypeOp ((lookupS (d.attributes.getD []) "name").getD "")
        ((lookupS (d.attributes.getD []) "publicId").getD "")
        ((lookupS (d.attributes.getD []) "systemId").getD "")] }
  else if d.tag == "*T" then
    let found := lookupA st.nodes d.id
    let node0 := match found with
      | some n => n
      | none => { tag := "*T" : RNode }
    let st1 := match found with
      | some _ => st
      | none => { st with log := st.log ++ [ROp.createOp d.id "*T"] }
    let node1 := { node0 with text := d.value }
    let st2 := { st1 with log := st1.log ++ [ROp.textOp d.id d.value] }
    insertR oracle d parent? node1 next? st2
  else if d.tag == "HTML" then
    let found := lookupA st.nodes d.id
    let node0 := match found with
      | some n => n
      | none => { tag := "HTML" : RNode }
    let st1 := match found with
      | some _ => st
      | none => { st with log := st.log ++ [ROp.replaceRootOp d.id] }
    let node1 := { node0 with attrs := d.attributes.getD [] }
    let st2 := { st1 with log := st1.log ++ [ROp.attrsOp d.id node1.attrs] }
    { st2 with nodes := updateA st2.nodes d.id node1 }
  else if d.tag == "HEAD" then
    let found := lookupA st.nodes d.id
    let node0 := match found with
      | some n => n
      | none => { tag := "HEAD" : RNode }
    -- on creation: synthesize <base> from the reserved "*B" attribute, then strip it
    let d2 := match found with
      | some _ => d
      | none => { d with attributes := (d.attributes.map (fun l => l.filter (fun p => p.1 ≠ "*B"))) }
    let st1 := match found with
      | some _ => st
      | none => { st with log := st.log ++ [ROp.createOp d.id "HEAD",
          ROp.baseOp ((lookupS (d.attributes.getD []) "*B").getD "")] }
    let node1 := { node0 with attrs := d2.attributes.getD [] }
    let st2 := { st1 with log := st1.log ++ [ROp.attrsOp d.id node1.attrs] }
    insertR oracle d2 parent? node1 next? st2
  else if d.tag == "STYLE" then
    let found := lookupA st.nodes d.id
    let node0 := match found with
      | some n => n
      | none => createElementR d.tag
    let st1 := match found with
      | some _ => st
      | none => { st with log := st.log ++ [ROp.createOp d.id d.tag] }
    let node1 := { node0 with attrs := d.attributes.getD [] }
    let st2 := { st1 with log := st1.log ++ [ROp.attrsOp d.id node1.attrs] }
    let node2 := { node1 with text := d.value }
    let st3 := { st2 with log := st2.log ++ [ROp.textOp d.id d.value] }
    let st4 := insertR oracle d parent? node2 next? st3
    -- missing `break`: execution continues into the default case
    markupDefault oracle st4 d parent? next?
  else
    markupDefault oracle st d parent? next?

/-- `markup(data, iframe)`: the record-processing loop. -/
def markup (oracle : Nat → Bool) (recs : List DecodedNode) (st : RepState) : RepState :=
  recs.foldl (markupStep oracle) st

end Replay

namespace Metrics

open ClarityAux

/-- One tracker slot (`ICounter` entry). -/
structure CEntry where
  updated : Bool
  counter : Int
  deriving DecidableEq, Repr

/-- `increment(key, counter)` from `src/unnamed/part_000`: initializes a
missing slot to `{updated: true, counter}` and then unconditionally marks it
updated and adds `counter` again. -/
def increment (tracker : List (Nat × CEntry)) (key : Nat) (counter : Int := 1) :
    List (Nat × CEntry) :=
  let t1 :=
    if (lookupA tracker key).isSome then tracker
    else updateA tracker key { updated := true, counter }
  modifyA t1 key (fun e => { updated := true, counter := e.counter + counter })

end Metrics

namespace Claims

open ClarityAux ClarityDom

open ClarityAux ClarityDom

/-- An inherited-masked input of type `password`, with a denylisted name and
an explicit mask attribute, but also the explicit unmask override. -/
def c3data : NodeData :=
  { tag := "INPUT",
    attributes := some [("type", "password"), ("name", "ssn"),
      ("data-clarity-mask", ""), ("data-clarity-unmask", "")] }

/-- An element whose only scrolling-capable overflow is vertical:
computed `overflowY` is `auto`, `overflowX` is `visible`, and it has a
render box and nonzero scroll offsets. -/
def c5style : CaptureEl.Computed :=
  { color := "rgb(0, 0, 0)",
    backgroundColor := "transparent",
    backgroundImage := "none",
    overflowX := "visible",
    overflowY := "auto",
    visibility := "visible" }

def c5elem : CaptureEl.ElemInput :=
  { tagName := "DIV", attributes := [], scrollLeft := 7, scrollTop := 9,
    rect := some { left := 10, top := 20, width := 30, height := 40 },
    valueProp := none,
    computed := c5style,
    pageXOffset := 0, pageYOffset := 0 }

/-- The reconstructor state holding just a registered parent element. -/
def c4init : Replay.RepState :=
  { nodes := [(1, { tag := "BODY" })], par := [], log := [] }

/-- A style-marker record targeting the registered parent. -/
def c4rec : Replay.DecodedNode :=
  { id := 5, tag := "STYLE", parent := some 1, next := none,
    attributes := some [("media", "all")], value := some "body" }

/-- Recognizer for generic-insert operations in the reconstructor log. -/
def isInsertOp : Replay.ROp → Bool
  | Replay.ROp.insertOp _ _ _ => true
  | _ => false

/-- A placeholder registry record (only used to spell out concrete lookups). -/
def c1dflt : NodeValue :=
  { id := 0, parent := none, next := none, children := [], position := none,
    data := { tag := "" }, selector := "", region := none,
    metadata := { active := false, boxmodel := false, masked := false } }

/-- Registry scenario for C1, built through the public operations: root `1`,
parents `P1 = 2` and `P2 = 3` under the root, siblings `S = 4` and `T = 5`
under `P2`, and `A = 6` under `P1`. -/
def c1state : DomState :=
  let s1 := add resetState none none none { tag := "HTML" } none Source.discover
  let s2 := add s1 none (some 1) none { tag := "DIV" } none Source.discover
  let s3 := add s2 none (some 1) none { tag := "DIV" } none Source.discover
  let s4 := add s3 none (some 3) none { tag := "SPAN" } none Source.discover
  let s5 := add s4 none (some 3) none { tag := "SPAN" } none Source.discover
  add s5 none (some 2) none { tag := "A" } none Source.discover

/-- States whose entries differ from `st` at most in the `data.path` field,
with the same pending queue: the loop invariant of `updates()`. -/
def PathsOnly (st s : DomState) : Prop :=
  s.updateMap = st.updateMap ∧
  ∀ k, getValueOf s k = getValueOf st k ∨
    ∃ v pth, getValueOf st k = some v ∧
      getValueOf s k = some { v with data := { v.data with path := pth } }

/-- The per-record `path` value `updates()` computes, read off the pre-flush
state. -/
def flushPath (st : DomState) (v : NodeValue) : Option String :=
  if (v.parent == none ||
      (match v.parent with
       | some pp => decide (pp < st.updateMap.length)
       | none => true) ||
      (v.data.attributes.isSome && hasKeyS (v.data.attributes.getD []) ID_ATTRIBUTE) ||
      v.selector.length == 0) = true then none
  else
    match v.parent with
    | some pp => (getValueOf st pp).map (fun x => x.selector)
    | none => none

/-- C2 refuted as stated: node `2` (a SPAN carrying its *own* `id` attribute)
is re-enqueued alone; its parent `1` is not pending in the flush (the queue is
`[2]`), the parent carries no id attribute, and the parent's selector is the
non-empty `"DIV"`.  The claim demands `path = "DIV"`, but the drained record
carries `path = null`, because the code tests the *record's own* attributes
for the id attribute (and tests queue membership of the parent with a JS
array-index `in`, not membership). -/
def c2state : DomState :=
  let a1 := add resetState none none none { tag := "DIV" } none Source.discover
  let a2 := add a1 none (some 1) none
    { tag := "SPAN", attributes := some [("id", "x")] } none Source.discover
  let a3 := (updates a2).2
  update a3 (some 2) (some 1) none
    { tag := "SPAN", attributes := some [("id", "x"), ("a", "b")] } none Source.attributes

end Claims

namespace C7

open ClarityAux ClarityDom

/-- Current child list of a registered entry (`[]` when absent). -/
def childrenOf (st : DomState) (i : Nat) : List Nat :=
  ((getValueOf st i).map (fun v => v.children)).getD []

/-- Fuel-bounded enumeration of a subtree following current child lists. -/
def descList : Nat → DomState → Nat → List Nat
  | 0, _, _ => []
  | fuel + 1, st, i => i :: ((childrenOf st i).map (descList fuel st)).flatten

/-- Deactivated with an emptied child list. -/
def deadAt (st : DomState) (d : Nat) : Bool :=
  match getValueOf st d with
  | some v => !v.metadata.active && v.children.isEmpty
  | none => false

/-- Transitive reachability along child lists of `st`. -/
inductive Reach (st : DomState) : Nat → Nat → Prop where
  | refl (i : Nat) : Reach st i i
  | step {i c d : Nat} (hc : c ∈ childrenOf st i) (h : Reach st c d) : Reach st i d

/-- Acyclicity certificate for the child graph: a rank function that strictly
decreases along every child edge of a registered entry, with children
registered.  Such a rank exists exactly when the child relation is acyclic —
precisely the states on which the unbounded JS `remove` recursion terminates.
Reparenting may place a lower id under a newer parent, so ranks need not
follow id order. -/
def WfRank (st : DomState) (rank : Nat → Nat) : Prop :=
  ∀ i v, getValueOf st i = some v →
    ∀ c ∈ v.children, rank c < rank i ∧ (getValueOf st c).isSome = true

/-- How states evolve during removal: same domain, child lists kept or
emptied, deactivation and emptiness preserved. -/
def Evol (s s' : DomState) : Prop :=
  ∀ i, ((getValueOf s' i).isSome = (getValueOf s i).isSome) ∧
    ∀ v v', getValueOf s i = some v → getValueOf s' i = some v' →
      (v'.children = v.children ∨ v'.children = []) ∧
      (v.metadata.active = false → v'.metadata.active = false) ∧
      (v.children = [] → v'.children = [])

/-- Dead closure: any entry whose child list the removal has emptied already
has its whole original subtree dead. -/
def DClosed (st0 s : DomState) : Prop :=
  ∀ x, (getValueOf st0 x).isSome = true →
    childrenOf s x = [] → childrenOf st0 x ≠ [] →
    ∀ d, Reach st0 x d → deadAt s d = true

end C7

namespace Claims

open ClarityAux ClarityDom

open ClarityAux ClarityDom

/-- Registry with two descendant levels below node `3` in which the child
graph does *not* follow id order: nodes `2`, `3` start under root `1`, node
`4` under `2`, then `update` reparents `2` (a lower id) under `3`, leaving
`1 → 3 → 2 → 4`. -/
def c7state : DomState :=
  let a1 := add resetState none none none { tag := "HTML" } none Source.discover
  let a2 := add a1 none (some 1) none { tag := "DIV" } none Source.discover
  let a3 := add a2 none (some 1) none { tag := "DIV" } none Source.discover
  let a4 := add a3 none (some 2) none { tag := "B" } none Source.discover
  update a4 (some 2) (some 3) none { tag := "DIV" } none Source.childListAdd

/-- A rank certificate for the child graph of `c7state`:
`1 → 3 → 2 → 4` after the reparent, so ranks decrease along edges even
though the id order does not. -/
def c7rank : Nat → Nat :=
  fun i => if i = 1 then 3 else if i = 2 then 1 else if i = 3 then 2 else 0

end Claims

namespace ClarityAux

@[simp] theorem lookupA_nil {α : Type} (k : Nat) : lookupA ([] : List (Nat × α)) k = none := rfl

@[simp] theorem lookupA_updateA {α : Type} (l : List (Nat × α)) (k j : Nat) (v : α) :
    lookupA (updateA l k v) j = if j = k then some v else lookupA l j := by
  simp only [lookupA, updateA, List.find?]
  by_cases h : j = k
  · subst h; simp
  · have : (k == j) = false := by simp [Ne.symm h]
    simp [this, h]

theorem lookupA_mem {α : Type} {l : List (Nat × α)} {k : Nat} {v : α}
    (h : lookupA l k = some v) : (k, v) ∈ l := by
  simp only [lookupA, Option.map_eq_some'] at h
  obtain ⟨p, hp, hv⟩ := h
  have hk := List.find?_some hp
  have hmem := List.mem_of_find?_eq_some hp
  have : p.1 = k := by simpa using hk
  cases p
  simp_all

end ClarityAux

namespace ClarityDom

open ClarityAux

theorem getValueOf_setValue (st : DomState) (i j : Nat) (v : NodeValue) :
    getValueOf (setValue st i v) j = if j = i then some v else getValueOf st j := by
  simp [getValueOf, setValue]

theorem getValueOf_modifyValue (st : DomState) (i : Nat) (f : NodeValue → NodeValue) (j : Nat) :
    getValueOf (modifyValue st i f) j =
      if j = i then (getValueOf st i).map f else getValueOf st j := by
  unfold modifyValue
  cases h : getValueOf st i with
  | none =>
    by_cases hj : j = i
    · subst hj; simp [h]
    · simp [hj]
  | some v =>
    by_cases hj : j = i
    · subst hj; simp [getValueOf_setValue, h]
    · simp [getValueOf_setValue, hj]

theorem trackQueue_values (st : DomState) (id : Nat) (src : Source) (ch : Bool) :
    (trackQueue st id src ch).values = st.values := by
  unfold trackQueue
  simp only []
  split
  · rfl
  · split <;> rfl

theorem trackQueue_index (st : DomState) (id : Nat) (src : Source) (ch : Bool) :
    (trackQueue st id src ch).index = st.index := by
  unfold trackQueue
  simp only []
  split
  · rfl
  · split <;> rfl

theorem trackQueue_changes (st : DomState) (id : Nat) (src : Source) (ch : Bool) :
    (trackQueue st id src ch).changes = st.changes := by
  unfold trackQueue
  simp only []
  split
  · rfl
  · split <;> rfl

theorem trackHistoryStep_values (st : DomState) (id : Nat) (src : Source) :
    (trackHistoryStep st id src).values = st.values := by
  unfold trackHistoryStep
  split
  · split <;> rfl
  · rfl

theorem trackHistoryStep_index (st : DomState) (id : Nat) (src : Source) :
    (trackHistoryStep st id src).index = st.index := by
  unfold trackHistoryStep
  split
  · split <;> rfl
  · rfl

theorem track_values (st : DomState) (id : Nat) (src : Source) (ch : Bool) :
    (track st id src ch).values = st.values := by
  unfold track
  rw [trackHistoryStep_values, trackQueue_values]

theorem reparentInsert_at (st : DomState) (p : Nat) (nextId? : Option Nat) (id : Nat)
    (pv : NodeValue) (hp : getValueOf st p = some pv) :
    getValueOf (reparentInsert st p nextId? id) p =
      some { pv with children :=
        match nextId? with
        | some n => jsSplice pv.children (n + 1) id
        | none => pv.children ++ [id] } := by
  cases nextId? <;> simp [reparentInsert, getValueOf_modifyValue, hp]

theorem reparentInsert_other (st : DomState) (p : Nat) (nextId? : Option Nat) (id j : Nat)
    (hj : j ≠ p) : getValueOf (reparentInsert st p nextId? id) j = getValueOf st j := by
  cases nextId? <;> simp [reparentInsert, getValueOf_modifyValue, hj]

theorem reparentRegion_other (st : DomState) (p id : Nat) (region : Option String) (j : Nat)
    (hj : j ≠ id) : getValueOf (reparentRegion st p id region) j = getValueOf st j := by
  simp [reparentRegion, getValueOf_modifyValue, hj]

theorem detachOld_other (st : DomState) (oldp : Option Nat) (id j : Nat)
    (hj : oldp ≠ some j) : getValueOf (detachOld st oldp id) j = getValueOf st j := by
  cases oldp with
  | none => rfl
  | some q =>
    have hq : j ≠ q := by
      intro h
      exact hj (by rw [h])
    simp [detachOld, getValueOf_modifyValue, hq]

theorem detachOld_at (st : DomState) (q id : Nat) (qv : NodeValue)
    (hq : getValueOf st q = some qv) :
    getValueOf (detachOld st (some q) id) q =
      some { qv with children := qv.children.erase id } := by
  simp [detachOld, getValueOf_modifyValue, hq]

theorem track_getValueOf (st : DomState) (id : Nat) (src : Source) (ch : Bool) (j : Nat) :
    getValueOf (track st id src ch) j = getValueOf st j := by
  unfold getValueOf
  rw [track_values]

theorem track_index (st : DomState) (id : Nat) (src : Source) (ch : Bool) :
    (track st id src ch).index = st.index := by
  unfold track
  rw [trackHistoryStep_index, trackQueue_index]

theorem positionFn_shape (st : DomState) (par : Option NodeValue) (child : NodeValue) :
    ∃ q, (positionFn st par child).1 = { child with position := q } := by
  unfold positionFn
  cases par with
  | none => exact ⟨child.position, rfl⟩
  | some pv =>
    simp only []
    split
    · split
      · split
        · split
          · exact ⟨_, rfl⟩
          · exact ⟨_, rfl⟩
        · exact ⟨_, rfl⟩
      · exact ⟨_, rfl⟩
    · exact ⟨child.position, rfl⟩

theorem updateSelector_pres {α : Type} (g : NodeValue → α)
    (hg : ∀ v sel pos, g { v with selector := sel, position := pos } = g v)
    (st : DomState) (i j : Nat) :
    (getValueOf (updateSelector st i) j).map g = (getValueOf st j).map g := by
  unfold updateSelector
  cases h : getValueOf st i with
  | none => rfl
  | some value =>
    simp only []
    obtain ⟨q, hq⟩ := positionFn_shape st (resolveParent st value.parent) value
    split
    · rw [getValueOf_setValue]
      by_cases hj : j = i
      · subst hj
        rw [h, hq]
        simp [hg]
      · simp [hj, getValueOf]
    · rw [getValueOf_setValue]
      by_cases hj : j = i
      · subst hj
        rw [h, hq]
        simp [hg]
      · simp [hj, getValueOf]

theorem foldl_addUrl_values (l : List String) (i : Nat) (s : DomState) :
    (l.foldl (fun s u =>
      let parts := u.trim.splitOn " "
      if parts.length == 2 && (parts.headD "").length > 0 then
        addUrl s (getFullUrl (parts.headD "")) i
      else s) s).values = s.values := by
  induction l generalizing s with
  | nil => rfl
  | cons u rest ih =>
    rw [List.foldl_cons, ih]
    simp only []
    split <;> rfl

theorem metadataUrls_values (st : DomState) (a : List (String × String)) (i : Nat) :
    (metadataUrls st a i).values = st.values := by
  unfold metadataUrls
  simp only []
  split
  · rw [foldl_addUrl_values]
    split <;> split <;> rfl
  · split <;> split <;> rfl

theorem modifyValue_pres {α : Type} (g : NodeValue → α) (f : NodeValue → NodeValue)
    (hgf : ∀ v, g (f v) = g v) (st : DomState) (i j : Nat) :
    (getValueOf (modifyValue st i f) j).map g = (getValueOf st j).map g := by
  rw [getValueOf_modifyValue]
  by_cases hj : j = i
  · subst hj
    cases getValueOf st j <;> simp [hgf]
  · simp [hj]

theorem metadataFn_pres {α : Type} (g : NodeValue → α)
    (hg : ∀ v, g { v with metadata := { v.metadata with boxmodel := true } } = g v)
    (st : DomState) (tag : String) (i : Nat) (par? : Option Nat) (inR : Bool) (j : Nat) :
    (getValueOf (metadataFn st tag i par? inR) j).map g = (getValueOf st j).map g := by
  unfold metadataFn
  split
  case isFalse => rfl
  case isTrue =>
    cases h : getValueOf st i with
    | none => rfl
    | some value =>
      simp only []
      have hurl : ∀ (a : List (String × String)),
          (getValueOf (metadataUrls st a i) j).map g = (getValueOf st j).map g := by
        intro a
        unfold getValueOf
        rw [metadataUrls_values]
      have hbox : ∀ (s : DomState),
          (getValueOf (modifyValue s i (fun v =>
            { v with metadata := { v.metadata with boxmodel := true } })) j).map g =
          (getValueOf s j).map g := fun s => modifyValue_pres g _ hg s i j
      split
      · rw [hbox]
        split
        · rw [hurl]
        · split
          · split
            · rw [hbox]
            · rfl
          · rfl
      · split
        · rw [hurl]
        · split
          · split
            · rw [hbox]
            · rfl
          · rfl

end ClarityDom

namespace Claims

open ClarityAux ClarityDom

open ClarityAux ClarityDom C7

/-- C3: for every observed node whose attribute map contains the explicit
unmask override attribute, the masking policy `mask` resolves `false`,
whatever the incoming (inherited) masked flag and the other attributes
(sensitive type, denylisted input name, explicit mask override): the unmask
override is evaluated last and wins unconditionally. -/
theorem claim3_unmask_override_wins (data : NodeData) (masked : Bool)
    (attrs : List (String × String)) (hattrs : data.attributes = some attrs)
    (hunmask : hasKeyS attrs UNMASK_ATTRIBUTE = true) :
    mask data masked = false := by
  unfold mask
  rw [hattrs]
  simp only []
  rw [hunmask]
  simp

/-- Witness for C3: the node of `c3data` resolves unmasked despite everything
else demanding masking. -/
theorem claim3_witness :
    c3data.attributes = some [("type", "password"), ("name", "ssn"),
      ("data-clarity-mask", ""), ("data-clarity-unmask", "")] ∧
    mask c3data true = false :=
  ⟨rfl, claim3_unmask_override_wins c3data true _ rfl (by decide)⟩

/-- C10: a node first observed by `add` resolves its masked flag as
`mask data m0`, where the pre-policy flag `m0` is inherited from the parent
exactly when the parent id points at a registered entry, and defaults to
`true` (not `false`) when the parent is null or unregistered. -/
theorem claim10_add_masked_default (st : DomState) (parentId? nextId? : Option Nat)
    (data : NodeData) (region : Option String) (src : Source) :
    (getValueOf (add st none parentId? nextId? data region src) st.index).map
        (fun v => v.metadata.masked) =
      some (mask data
        (match parentId? with
         | some p =>
           match getValueOf st p with
           | some pv => pv.metadata.masked
           | none => true
         | none => true)) := by
  unfold add
  simp only []
  rw [track_getValueOf,
    metadataFn_pres (fun v => v.metadata.masked) (fun v => rfl),
    updateSelector_pres (fun v => v.metadata.masked) (fun v sel pos => rfl),
    getValueOf_setValue]
  simp only [if_pos rfl, Option.map_some']
  -- the inherited flag produced by addInherit is exactly the claimed one
  cases parentId? with
  | none => rfl
  | some p =>
    show some (mask data (addInherit { st with index := st.index + 1 } st.index (some p) region).2.2) = _
    have hp2 : getValueOf { st with index := st.index + 1 } p = getValueOf st p := rfl
    cases hp : getValueOf st p with
    | none => simp [addInherit, hp2, hp]
    | some pv => simp [addInherit, hp2, hp]

/-- C6: `updates()` clears the pending queue, and a second call with no
intervening mutation drains nothing. -/
theorem claim6_flush_idempotent (st : DomState) :
    (updates st).2.updateMap = [] ∧ (updates (updates st).2).1 = [] :=
  ⟨rfl, rfl⟩

/-- C9: `increment` on the counter tracker: a fresh key ends up at `2*n`
(the initializer stores `n` and the unconditional addition adds `n` again),
while an existing key gains exactly `n`. -/
theorem claim9_increment_double (tracker : List (Nat × Metrics.CEntry)) (key : Nat) (n : Int) :
    (lookupA tracker key = none →
      lookupA (Metrics.increment tracker key n) key =
        some { updated := true, counter := n + n }) ∧
    (∀ e, lookupA tracker key = some e →
      lookupA (Metrics.increment tracker key n) key =
        some { updated := true, counter := e.counter + n }) := by
  constructor
  · intro h
    simp [Metrics.increment, modifyA, h]
  · intro e he
    simp [Metrics.increment, modifyA, he]

/-- Witness for C9: incrementing an absent key by 3 stores 6. -/
theorem claim9_witness :
    lookupA (Metrics.increment [] 0 3) 0 = some { updated := true, counter := 6 } := by
  have h := (claim9_increment_double [] 0 3).1 rfl
  simpa using h

/-- C5 (divergence witness): on `c5elem` the style snapshot does record the
vertical overflow value `auto`, yet the captured layout has no scroll offsets,
because the source guard tests `Styles.OverflowX in elementState.style` twice
and never consults `OverflowY`. -/
theorem claim5_scroll_not_captured :
    ((CaptureEl.createElementLayoutState CaptureEl.DefaultAttributeMaskList "" c5elem
        { unmask := false }).1.style.map (fun st => st.overflowY)) = some (some "auto") ∧
    ((CaptureEl.createElementLayoutState CaptureEl.DefaultAttributeMaskList "" c5elem
        { unmask := false }).1.layout.map (fun l => (l.scrollX, l.scrollY))) =
      some (none, none) := by
  constructor
  · decide
  · decide

/-- C4 (divergence witness): replaying the style record `c4rec` leaves the
element stamped with the debug-only `data-id` attribute and performs two
generic inserts, because the `STYLE` case of the `markup` switch has no
`break` and falls through into the `default:` case. -/
theorem claim4_style_fallthrough :
    ((lookupA (Replay.markupStep (fun _ => false) c4init c4rec).nodes 5).map
        (fun n => (lookupS n.attrs "data-id", n.text))) = some (some "5", some "body") ∧
    (((Replay.markupStep (fun _ => false) c4init c4rec).log.filter isInsertOp).length = 2) := by
  constructor
  · decide
  · decide

/-- C1 refuted as stated: re-observing `A = 6` with new parent `P2 = 3` and
next sibling `S = 4`, where `S` sits at child-list position `k = 0`, must per
the claim land `A` at position `k + 1 = 1`, i.e. yield `[4, 6, 5]`.  The code
splices at index `nextId + 1 = 5` (the sibling's *node id* plus one, clamped
to the list length) and yields `[4, 5, 6]` instead.  The detach from the old
parent `P1 = 2` does happen. -/
theorem claim1_counterexample :
    ((getValueOf c1state 3).map (fun v => v.children)) = some [4, 5] ∧
    ((getValueOf (update c1state (some 6) (some 3) (some 4) { tag := "A" } none
        Source.childListAdd) 3).map (fun v => v.children)) = some [4, 5, 6] ∧
    ¬ ((getValueOf (update c1state (some 6) (some 3) (some 4) { tag := "A" } none
        Source.childListAdd) 3).map (fun v => v.children)) = some [4, 6, 5] ∧
    ((getValueOf (update c1state (some 6) (some 3) (some 4) { tag := "A" } none
        Source.childListAdd) 2).map (fun v => v.children)) = some [] := by
  refine ⟨by decide, by decide, by decide, by decide⟩

/-- C1 as amended: on reparent, `update` removes the node from the old
parent's child list and inserts it into the new parent's list at JS-splice
index `nextId + 1`, where `nextId` is the *node id* of the resolved next
sibling (so effectively at `min (nextId + 1) |children|`), appending when no
next sibling resolves. -/
theorem claim1_reparent_splice (st0 : DomState) (id p : Nat) (nextId? : Option Nat)
    (data : NodeData) (region : Option String) (src : Source) (value0 pv0 : NodeValue)
    (hid : getValueOf st0 id = some value0)
    (hp : getValueOf st0 p = some pv0)
    (hpc : value0.parent ≠ some p)
    (hip : id ≠ p) :
    (((getValueOf (update st0 (some id) (some p) nextId? data region src) p).map
        (fun v => v.children)) =
      some (match nextId? with
            | some n => jsSplice pv0.children (n + 1) id
            | none => pv0.children ++ [id])) ∧
    (∀ q qv, value0.parent = some q → q ≠ id → getValueOf st0 q = some qv →
      ((getValueOf (update st0 (some id) (some p) nextId? data region src) q).map
          (fun v => v.children)) = some (qv.children.erase id)) := by
  have htail : ∀ (s : DomState) (b : Bool) (j : Nat),
      (getValueOf (track (metadataFn (updateSelector (mergeInto s id data) id)
          data.tag id (some p) region.isSome) id src b) j).map (fun v => v.children) =
        (getValueOf s j).map (fun v => v.children) := by
    intro s b j
    rw [track_getValueOf, metadataFn_pres (fun v => v.children) (fun v => rfl),
      updateSelector_pres (fun v => v.children) (fun v sel pos => rfl)]
    simp only [mergeInto]
    rw [modifyValue_pres (fun v => v.children)
      (fun vNow => { vNow with data := (mergeData vNow.data data).1 }) (fun v => rfl)]
  have hpA : getValueOf (setValue st0 id
      { value0 with
          next := nextId?,
          parent := some p,
          metadata := { value0.metadata with active := true } }) p = some pv0 := by
    rw [getValueOf_setValue, if_neg (fun h => hip h.symm)]
    exact hp
  constructor
  · unfold update
    simp only [hid]
    rw [htail]
    simp only [if_pos hpc]
    rw [detachOld_other _ _ _ _ hpc,
      reparentRegion_other _ _ _ _ _ (fun h => hip h.symm),
      reparentInsert_at _ _ _ _ pv0 hpA]
    simp
  · intro q qv hq hqi hqv
    have hqp : q ≠ p := fun h => hpc (by rw [hq, h])
    unfold update
    simp only [hid]
    rw [htail]
    simp only [if_pos hpc]
    rw [hq]
    have hstMove : getValueOf (reparentRegion (reparentInsert (setValue st0 id
        { value0 with
            next := nextId?,
            parent := some p,
            metadata := { value0.metadata with active := true } }) p nextId? id) p id region) q =
        some qv := by
      rw [reparentRegion_other _ _ _ _ _ hqi,
        reparentInsert_other _ _ _ _ _ hqp,
        getValueOf_setValue, if_neg (fun h => hqi h)]
      exact hqv
    rw [detachOld_at _ _ _ _ hstMove]
    simp

/-- Witness for C1 (amended): the concrete reparent of `A = 6` under
`P2 = 3` before `S = 4` lands the splice result in `P2`'s child list. -/
theorem claim1_witness :
    ((getValueOf (update c1state (some 6) (some 3) (some 4) { tag := "A" } none
        Source.childListAdd) 3).map (fun v => v.children)) =
      some (jsSplice ((getValueOf c1state 3).getD c1dflt).children (4 + 1) 6) := by
  have h := (claim1_reparent_splice c1state 6 3 (some 4) { tag := "A" } none Source.childListAdd
      ((getValueOf c1state 6).getD c1dflt) ((getValueOf c1state 3).getD c1dflt)
      (by decide) (by decide) (by decide) (by decide)).1
  simpa using h

theorem pathsOnly_refl (st : DomState) : PathsOnly st st :=
  ⟨rfl, fun _ => Or.inl rfl⟩

theorem pathsOnly_sel (st s : DomState) (h : PathsOnly st s) (k : Nat) :
    (getValueOf s k).map (fun x => x.selector) =
      (getValueOf st k).map (fun x => x.selector) := by
  rcases h.2 k with h1 | ⟨v, pth, hst, hs⟩
  · rw [h1]
  · rw [hst, hs]
    simp

/-- The entry a paths-only state holds for a registered id, spelled as the
original record with a (possibly) different path. -/
theorem pathsOnly_entry (st s : DomState) (h : PathsOnly st s) (i : Nat) (v : NodeValue)
    (hv : getValueOf st i = some v) :
    ∃ pth2, getValueOf s i = some { v with data := { v.data with path := pth2 } } := by
  rcases h.2 i with h1 | ⟨w, pth, hst, hs⟩
  · refine ⟨v.data.path, ?_⟩
    rw [h1, hv]
  · rw [hv] at hst
    injection hst with hst
    subst hst
    exact ⟨pth, hs⟩

theorem flushStep_pathsOnly (st s : DomState) (h : PathsOnly st s) (i : Nat) :
    PathsOnly st (flushStep s i) := by
  unfold flushStep
  cases hsi : getValueOf s i with
  | none => exact h
  | some v =>
    refine ⟨h.1, fun k => ?_⟩
    rw [getValueOf_setValue]
    by_cases hk : k = i
    · subst hk
      right
      rcases h.2 k with h1 | ⟨w, pth, hst, hs⟩
      · rw [hsi] at h1
        exact ⟨v, _, h1.symm, if_pos rfl⟩
      · rw [hsi] at hs
        injection hs with hs
        subst hs
        exact ⟨w, _, hst, if_pos rfl⟩
    · simp only [if_neg hk]
      exact h.2 k

/-- Processing record `i` in any state that differs from `st` by paths only
stores exactly `flushPath st` for it. -/
theorem flushStep_at (st s : DomState) (h : PathsOnly st s) (i : Nat) (v : NodeValue)
    (hv : getValueOf st i = some v) :
    getValueOf (flushStep s i) i =
      some { v with data := { v.data with path := flushPath st v } } := by
  have hlen : s.updateMap = st.updateMap := h.1
  obtain ⟨pth2, hsi⟩ := pathsOnly_entry st s h i v hv
  unfold flushStep
  simp only [hsi, getValueOf_setValue, if_pos rfl, Option.some.injEq]
  simp only [flushPath, hlen, pathsOnly_sel st s h]
  simp

/-- Once a record carries its final path, later loop iterations leave it
unchanged. -/
theorem flushStep_stable (st s : DomState) (h : PathsOnly st s) (i : Nat) (v : NodeValue)
    (hv : getValueOf st i = some v)
    (hdone : getValueOf s i = some { v with data := { v.data with path := flushPath st v } })
    (j : Nat) :
    getValueOf (flushStep s j) i =
      some { v with data := { v.data with path := flushPath st v } } := by
  by_cases hij : i = j
  · subst hij
    exact flushStep_at st s h i v hv
  · unfold flushStep
    cases hsj : getValueOf s j with
    | none => exact hdone
    | some w =>
      rw [getValueOf_setValue, if_neg hij]
      exact hdone

theorem flushLoop_stable (st : DomState) (i : Nat) (v : NodeValue)
    (hv : getValueOf st i = some v) :
    ∀ (l : List Nat) (s : DomState), PathsOnly st s →
      getValueOf s i = some { v with data := { v.data with path := flushPath st v } } →
      getValueOf (l.foldl flushStep s) i =
        some { v with data := { v.data with path := flushPath st v } } := by
  intro l
  induction l with
  | nil => intro s _ hdone; exact hdone
  | cons j rest ih =>
    intro s hps hdone
    rw [List.foldl_cons]
    exact ih (flushStep s j) (flushStep_pathsOnly st s hps j)
      (flushStep_stable st s hps i v hv hdone j)

theorem flushLoop_at (st : DomState) (i : Nat) (v : NodeValue)
    (hv : getValueOf st i = some v) :
    ∀ (l : List Nat) (s : DomState), PathsOnly st s → i ∈ l →
      getValueOf (l.foldl flushStep s) i =
        some { v with data := { v.data with path := flushPath st v } } := by
  intro l
  induction l with
  | nil => intro s _ hmem; cases hmem
  | cons j rest ih =>
    intro s hps hmem
    have hps' : PathsOnly st (flushStep s j) := flushStep_pathsOnly st s hps j
    rw [List.foldl_cons]
    by_cases hij : i = j
    · subst hij
      exact flushLoop_stable st i v hv rest (flushStep s i) hps'
        (flushStep_at st s hps i v hv)
    · have hmem' : i ∈ rest := by
        cases hmem with
        | head => exact absurd rfl hij
        | tail _ hmem0 => exact hmem0
      exact ih (flushStep s j) hps' hmem'

/-- C2 counterexample (see `c2state`). -/
theorem claim2_counterexample :
    c2state.updateMap = [2] ∧
    ¬ (1 ∈ c2state.updateMap) ∧
    ((getValueOf c2state 1).map (fun v => (v.selector, v.data.attributes))) =
      some ("DIV", none) ∧
    ((updates c2state).1.map (fun v => (v.id, v.data.path))) = [(2, none)] := by
  refine ⟨by decide, by decide, by decide, by decide⟩

/-- C2 as amended: for every id pending at flush time and registered, the
drained record keeps all its fields except `path`, which is set to the
registered parent's pre-flush selector — except that it is null when the
parent id is null, when the parent id is a valid *index* into the pending
queue (`p in updateMap` on a JS array tests indices, not membership), when
the record's *own* attribute map carries the id attribute, or when the
record's selector is empty. -/
theorem claim2_flush_path (st : DomState) (i : Nat) (v : NodeValue)
    (hmem : i ∈ st.updateMap) (hv : getValueOf st i = some v) :
    getValueOf (updates st).2 i =
      some { v with data := { v.data with path := flushPath st v } } := by
  show getValueOf { st.updateMap.foldl flushStep st with updateMap := [] } i = _
  have h := flushLoop_at st i v hv st.updateMap st (pathsOnly_refl st) hmem
  exact h

/-- Witness for C2 (amended): the drained record of node `2` in `c2state`
carries exactly the computed flush path (which is null by the own-id rule). -/
theorem claim2_witness :
    getValueOf (updates c2state).2 2 =
      some { (getValueOf c2state 2).getD c1dflt with
        data := { ((getValueOf c2state 2).getD c1dflt).data with
          path := flushPath c2state ((getValueOf c2state 2).getD c1dflt) } } := by
  have h := claim2_flush_path c2state 2 ((getValueOf c2state 2).getD c1dflt)
    (by decide) (by decide)
  exact h

open Replay in
theorem insertR_nodes (oracle : Nat → Bool) (d : DecodedNode) (parent? : Option Nat)
    (nodeVal : RNode) (next? : Option Nat) (st : RepState) :
    (insertR oracle d parent? nodeVal next? st).nodes = updateA st.nodes d.id nodeVal := by
  unfold insertR
  simp only []
  split
  · split <;> rfl
  · split <;> rfl

open Replay in
theorem insertR_isSome_self (oracle : Nat → Bool) (d : DecodedNode) (parent? : Option Nat)
    (nodeVal : RNode) (next? : Option Nat) (st : RepState) :
    (lookupA (insertR oracle d parent? nodeVal next? st).nodes d.id).isSome = true := by
  rw [insertR_nodes]
  simp

open Replay in
theorem insertR_isSome_mono (oracle : Nat → Bool) (d : DecodedNode) (parent? : Option Nat)
    (nodeVal : RNode) (next? : Option Nat) (st : RepState) (i : Nat)
    (h : (lookupA st.nodes i).isSome = true) :
    (lookupA (insertR oracle d parent? nodeVal next? st).nodes i).isSome = true := by
  rw [insertR_nodes]
  by_cases hk : i = d.id <;> simp [hk, h]

open Replay in
theorem markupDefault_isSome_self (oracle : Nat → Bool) (st : RepState) (d : DecodedNode)
    (parent? next? : Option Nat) :
    (lookupA (markupDefault oracle st d parent? next?).nodes d.id).isSome = true := by
  unfold markupDefault
  simp only []
  exact insertR_isSome_self ..

open Replay in
theorem markupDefault_isSome_mono (oracle : Nat → Bool) (st : RepState) (d : DecodedNode)
    (parent? next? : Option Nat) (i : Nat) (h : (lookupA st.nodes i).isSome = true) :
    (lookupA (markupDefault oracle st d parent? next?).nodes i).isSome = true := by
  unfold markupDefault
  simp only []
  rw [insertR_nodes]
  by_cases hk : i = d.id
  · simp [hk]
  · cases hfound : lookupA st.nodes d.id <;> simp [hfound, hk, h]

open Replay in
theorem markupStep_registers (oracle : Nat → Bool) (st : RepState) (d : DecodedNode)
    (hd : d.tag ≠ "*D") :
    (lookupA (markupStep oracle st d).nodes d.id).isSome = true := by
  unfold markupStep
  simp only []
  split_ifs with h1 h2 h3 h4 h5
  · exact absurd (eq_of_beq h1) hd
  · cases hfound : lookupA st.nodes d.id <;>
      simp only [hfound] <;> exact insertR_isSome_self ..
  · cases hfound : lookupA st.nodes d.id <;> simp [hfound]
  · cases hfound : lookupA st.nodes d.id <;>
      simp only [hfound] <;> exact insertR_isSome_self ..
  · cases hfound : lookupA st.nodes d.id <;>
      simp only [hfound] <;> exact markupDefault_isSome_self ..
  · exact markupDefault_isSome_self ..

open Replay in
theorem markupStep_mono (oracle : Nat → Bool) (st : RepState) (d : DecodedNode) (i : Nat)
    (h : (lookupA st.nodes i).isSome = true) :
    (lookupA (markupStep oracle st d).nodes i).isSome = true := by
  unfold markupStep
  simp only []
  split_ifs with h1 h2 h3 h4 h5
  · exact h
  · cases hfound : lookupA st.nodes d.id <;>
      simp only [hfound] <;> exact insertR_isSome_mono oracle _ _ _ _ _ i h
  · by_cases hk : i = d.id
    · cases hfound : lookupA st.nodes d.id <;> simp [hfound, hk]
    · cases hfound : lookupA st.nodes d.id <;> simp [hfound, hk, h]
  · cases hfound : lookupA st.nodes d.id <;>
      simp only [hfound] <;> exact insertR_isSome_mono oracle _ _ _ _ _ i h
  · cases hfound : lookupA st.nodes d.id <;>
      simp only [hfound] <;>
      exact markupDefault_isSome_mono oracle _ _ _ _ i
        (insertR_isSome_mono oracle _ _ _ _ _ i h)
  · exact markupDefault_isSome_mono oracle _ _ _ _ i h

open Replay in
theorem markup_mono (oracle : Nat → Bool) (recs : List DecodedNode) :
    ∀ (st : RepState) (i : Nat), (lookupA st.nodes i).isSome = true →
      (lookupA (markup oracle recs st).nodes i).isSome = true := by
  induction recs with
  | nil => intro st i h; exact h
  | cons r rest ih =>
    intro st i h
    rw [markup, List.foldl_cons]
    exact ih (markupStep oracle st r) i (markupStep_mono oracle st r i h)

/-- C8: insertion failures are caught and record-scoped.
First conjunct: whatever records fail to insert (the `oracle` models the host
DOM throwing from `insertBefore`), every record of the stream — the failing
one and every subsequent one — is still processed and registered in the
reconstructor's id table (any tag except the doctype marker, which never
touches the table).  Second conjunct: a failing insert with a resolved parent
leaves the document attachment map untouched and only appends the warning
log entry (node/parent/record context) while still registering the node. -/
theorem claim8_insert_failures_isolated :
    (∀ (oracle : Nat → Bool) (recs : List Replay.DecodedNode) (st : Replay.RepState)
        (d : Replay.DecodedNode), d ∈ recs → d.tag ≠ "*D" →
        (lookupA (Replay.markup oracle recs st).nodes d.id).isSome = true) ∧
    (∀ (oracle : Nat → Bool) (d : Replay.DecodedNode) (p : Nat) (nodeVal : Replay.RNode)
        (next? : Option Nat) (st : Replay.RepState), oracle d.id = true →
        Replay.insertR oracle d (some p) nodeVal next? st =
          { st with log := st.log ++ [Replay.ROp.warnOp d.id p],
                    nodes := updateA st.nodes d.id nodeVal }) := by
  constructor
  · intro oracle recs
    induction recs with
    | nil => intro st d hmem; cases hmem
    | cons r rest ih =>
      intro st d hmem hd
      rw [Replay.markup, List.foldl_cons]
      cases hmem with
      | head =>
        exact markup_mono oracle rest (Replay.markupStep oracle st r) r.id
          (markupStep_registers oracle st r hd)
      | tail _ hmem0 =>
        exact ih (Replay.markupStep oracle st r) d hmem0 hd
  · intro oracle d p nodeVal next? st h
    unfold Replay.insertR
    simp [h]

/-- Witness for C8: with an oracle failing every insert, both records of a
two-record stream still end up registered; in particular the second record is
processed after the first one's insertion failed. -/
theorem claim8_witness :
    (lookupA (Replay.markup (fun _ => true)
      [{ id := 1, tag := "DIV" }, { id := 2, parent := some 1, tag := "SPAN" }]
      {}).nodes 2).isSome = true :=
  (claim8_insert_failures_isolated).1 (fun _ => true)
    [{ id := 1, tag := "DIV" }, { id := 2, parent := some 1, tag := "SPAN" }] {}
    { id := 2, parent := some 1, tag := "SPAN" } (by decide) (by decide)

end Claims

namespace C7

open ClarityAux ClarityDom

theorem evol_refl (s : DomState) : Evol s s := by
  intro i
  refine ⟨rfl, fun v v' hv hv' => ?_⟩
  rw [hv] at hv'
  injection hv' with h
  subst h
  exact ⟨Or.inl rfl, fun h => h, fun h => h⟩

theorem evol_step (s s' : DomState)
    (h : ∀ i, (getValueOf s' i = getValueOf s i) ∨
      ∃ v v', getValueOf s i = some v ∧ getValueOf s' i = some v' ∧
        (v'.children = v.children ∨ v'.children = []) ∧
        (v.metadata.active = false → v'.metadata.active = false) ∧
        (v.children = [] → v'.children = [])) :
    Evol s s' := by
  intro i
  rcases h i with heq | ⟨v, v', hv, hv', hc, ha, hemp⟩
  · rw [heq]
    refine ⟨rfl, fun w w' hw hw' => ?_⟩
    rw [hw] at hw'
    injection hw' with h0
    subst h0
    exact ⟨Or.inl rfl, fun x => x, fun x => x⟩
  · rw [hv, hv']
    refine ⟨rfl, fun w w' hw hw' => ?_⟩
    injection hw with h1
    injection hw' with h2
    subst h1
    subst h2
    exact ⟨hc, ha, hemp⟩

theorem evol_trans {a b c : DomState} (h1 : Evol a b) (h2 : Evol b c) : Evol a c := by
  intro i
  obtain ⟨hd1, hf1⟩ := h1 i
  obtain ⟨hd2, hf2⟩ := h2 i
  refine ⟨hd2.trans hd1, fun v v' hv hv' => ?_⟩
  have hb : (getValueOf b i).isSome = true := by
    rw [hd1, hv]
    rfl
  obtain ⟨w, hw⟩ := Option.isSome_iff_exists.mp hb
  obtain ⟨hcw, haw, hew⟩ := hf1 v w hv hw
  obtain ⟨hcw', haw', hew'⟩ := hf2 w v' hw hv'
  refine ⟨?_, fun h => haw' (haw h), fun h => hew' (hew h)⟩
  rcases hcw with h1c | h1c
  · rcases hcw' with h2c | h2c
    · exact Or.inl (h2c.trans h1c)
    · exact Or.inr h2c
  · rcases hcw' with h2c | h2c
    · exact Or.inr (h2c.trans h1c)
    · exact Or.inr h2c

theorem evol_of_values_eq {s s' : DomState}
    (h : ∀ i, getValueOf s' i = getValueOf s i) : Evol s s' :=
  evol_step s s' (fun i => Or.inl (h i))

theorem evol_dead {s s' : DomState} (h : Evol s s') {d : Nat}
    (hd : deadAt s d = true) : deadAt s' d = true := by
  unfold deadAt at hd ⊢
  cases hv : getValueOf s d with
  | none => rw [hv] at hd; cases hd
  | some v =>
    rw [hv] at hd
    have hsome : (getValueOf s' d).isSome = true := by
      rw [(h d).1, hv]
      rfl
    obtain ⟨v', hv'⟩ := Option.isSome_iff_exists.mp hsome
    obtain ⟨hc, ha, he⟩ := (h d).2 v v' hv hv'
    rw [hv']
    simp only [Bool.and_eq_true, Bool.not_eq_eq_eq_not, Bool.not_true,
      List.isEmpty_iff] at hd ⊢
    obtain ⟨hact, hemp⟩ := hd
    exact ⟨ha hact, he hemp⟩

theorem evol_children_empty {s s' : DomState} (h : Evol s s') {x : Nat}
    (hx : childrenOf s x = []) : childrenOf s' x = [] := by
  unfold childrenOf at hx ⊢
  cases hv : getValueOf s x with
  | none =>
    have hn : (getValueOf s' x).isSome = false := by
      rw [(h x).1, hv]
      rfl
    have hnone : getValueOf s' x = none := by
      cases hc : getValueOf s' x
      · rfl
      · rw [hc] at hn; cases hn
    rw [hnone]
    rfl
  | some v =>
    rw [hv] at hx
    simp only [Option.map_some', Option.getD_some] at hx
    have hsome : (getValueOf s' x).isSome = true := by
      rw [(h x).1, hv]
      rfl
    obtain ⟨v', hv'⟩ := Option.isSome_iff_exists.mp hsome
    obtain ⟨-, -, he⟩ := (h x).2 v v' hv hv'
    rw [hv']
    simp [he hx]

theorem dclosed_refl (st : DomState) : DClosed st st :=
  fun _ _ h1 h0 => absurd h1 h0

theorem dclosed_transport {st0 s s' : DomState} (hD : DClosed st0 s)
    (hch : ∀ x, childrenOf s' x = childrenOf s x) (hEv : Evol s s') :
    DClosed st0 s' := by
  intro x hx h1 h0 d hr
  rw [hch x] at h1
  exact evol_dead hEv (hD x hx h1 h0 d hr)

theorem descList_reach (st : DomState) :
    ∀ (fuel i d : Nat), d ∈ descList fuel st i → Reach st i d := by
  intro fuel
  induction fuel with
  | zero => intro i d h; cases h
  | succ f ih =>
    intro i d h
    rw [descList] at h
    rcases List.mem_cons.mp h with h0 | h0
    · subst h0; exact Reach.refl d
    · obtain ⟨l, hl, hdl⟩ := List.mem_flatten.mp h0
      obtain ⟨c, hc, hcl⟩ := List.mem_map.mp hl
      subst hcl
      exact Reach.step hc (ih c d hdl)

theorem removeFuel_main (rank : Nat → Nat) (st0 : DomState) (hwf : WfRank st0 rank) :
    ∀ (fuel : Nat) (s : DomState) (id : Nat) (src : Source),
      Evol st0 s → DClosed st0 s →
      (getValueOf st0 id).isSome = true →
      rank id < fuel →
      Evol s (removeFuel fuel s id src) ∧
      DClosed st0 (removeFuel fuel s id src) ∧
      (∀ d, Reach st0 id d → deadAt (removeFuel fuel s id src) d = true) := by
  intro fuel
  induction fuel with
  | zero =>
    intro s id src hE hD hid hfuel
    exact absurd hfuel (Nat.not_lt_zero (rank id))
  | succ f IH =>
    intro s id src hE hD hid hfuel
    obtain ⟨v0, hv0⟩ := Option.isSome_iff_exists.mp hid
    have hsid : (getValueOf s id).isSome = true := by
      rw [(hE id).1]
      exact hid
    obtain ⟨v, hv⟩ := Option.isSome_iff_exists.mp hsid
    have hred : removeFuel (f + 1) s id src =
        modifyValue (v.children.foldl (fun sAcc c => removeFuel f sAcc c src)
          (track (setValue s id
            { v with metadata := { v.metadata with active := false }, parent := none }) id src))
          id (fun w => { w with children := [] }) := by
      simp only [removeFuel, hv]
    rw [hred]
    set s1 := setValue s id
      { v with metadata := { v.metadata with active := false }, parent := none } with hs1def
    set s2 := track s1 id src with hs2def
    set s3 := v.children.foldl (fun sAcc c => removeFuel f sAcc c src) s2 with hs3def
    -- step 1: deactivate
    have hv1 : getValueOf s1 id =
        some { v with metadata := { v.metadata with active := false }, parent := none } := by
      rw [hs1def, getValueOf_setValue, if_pos rfl]
    have hE1 : Evol s s1 := by
      apply evol_step
      intro i
      by_cases hi : i = id
      · subst hi
        right
        exact ⟨v, _, hv, hv1, Or.inl rfl, fun _ => rfl, fun h => h⟩
      · left
        rw [hs1def, getValueOf_setValue, if_neg hi]
    have hch1 : ∀ x, childrenOf s1 x = childrenOf s x := by
      intro x
      unfold childrenOf
      rw [hs1def, getValueOf_setValue]
      by_cases hx : x = id
      · subst hx
        rw [if_pos rfl, hv]
        rfl
      · rw [if_neg hx]
    have hD1 : DClosed st0 s1 := dclosed_transport hD hch1 hE1
    -- step 2: track (no registry-value change)
    have hveq2 : ∀ i, getValueOf s2 i = getValueOf s1 i := by
      intro i
      rw [hs2def]
      exact track_getValueOf s1 id src true i
    have hE2 : Evol s1 s2 := evol_of_values_eq hveq2
    have hch2 : ∀ x, childrenOf s2 x = childrenOf s1 x := by
      intro x
      unfold childrenOf
      rw [hveq2 x]
    have hD2 : DClosed st0 s2 := dclosed_transport hD1 hch2 hE2
    -- the children being visited, related to the original state
    have hch : v.children = v0.children ∨ v.children = [] :=
      (((hE id).2) v0 v hv0 hv).1
    have hcs : ∀ c ∈ v.children, (getValueOf st0 c).isSome = true ∧ rank c < f := by
      intro c hc
      have hc0 : c ∈ v0.children := by
        rcases hch with h1 | h1
        · rw [h1] at hc
          exact hc
        · rw [h1] at hc
          cases hc
      obtain ⟨hlt, hsome⟩ := hwf id v0 hv0 c hc0
      exact ⟨hsome, by omega⟩
    -- step 3: the recursive fold over the children
    have hfold : ∀ (cs : List Nat), (∀ c ∈ cs, (getValueOf st0 c).isSome = true ∧ rank c < f) →
        ∀ (sA : DomState), Evol st0 sA → DClosed st0 sA →
        Evol sA (cs.foldl (fun sAcc c => removeFuel f sAcc c src) sA) ∧
        DClosed st0 (cs.foldl (fun sAcc c => removeFuel f sAcc c src) sA) ∧
        (∀ c ∈ cs, ∀ d, Reach st0 c d →
          deadAt (cs.foldl (fun sAcc c => removeFuel f sAcc c src) sA) d = true) := by
      intro cs
      induction cs with
      | nil =>
        intro _ sA hEA hDA
        exact ⟨evol_refl sA, hDA, fun c hc => absurd hc (List.not_mem_nil c)⟩
      | cons c rest ihc =>
        intro hcs2 sA hEA hDA
        obtain ⟨hcid, hcf⟩ := hcs2 c (List.mem_cons_self c rest)
        obtain ⟨hEc, hDc, hdc⟩ := IH sA c src hEA hDA hcid hcf
        obtain ⟨hEr, hDr, hdr⟩ := ihc (fun c2 hc2 => hcs2 c2 (List.mem_cons_of_mem c hc2))
          (removeFuel f sA c src) (evol_trans hEA hEc) hDc
        rw [List.foldl_cons]
        refine ⟨evol_trans hEc hEr, hDr, fun c2 hc2 d hr => ?_⟩
        rcases List.mem_cons.mp hc2 with h0 | h0
        · subst h0
          exact evol_dead hEr (hdc d hr)
        · exact hdr c2 h0 d hr
    have hE02 : Evol st0 s2 := evol_trans hE (evol_trans hE1 hE2)
    obtain ⟨hEf, hDf, hdf⟩ := hfold v.children hcs s2 hE02 hD2
    -- step 4: empty the child list of the root of the removal
    have hE3 : Evol s3 (modifyValue s3 id (fun w => { w with children := [] })) := by
      apply evol_step
      intro i
      by_cases hi : i = id
      · subst hi
        cases hv3 : getValueOf s3 i with
        | none =>
          left
          rw [getValueOf_modifyValue, if_pos rfl, hv3]
          rfl
        | some w =>
          right
          refine ⟨w, { w with children := [] }, rfl, ?_, Or.inr rfl, fun h => h, fun _ => rfl⟩
          rw [getValueOf_modifyValue, if_pos rfl, hv3]
          rfl
      · left
        rw [getValueOf_modifyValue, if_neg hi]
    -- the root is deactivated throughout
    have hE13 : Evol s1 s3 := evol_trans hE2 hEf
    have hact3 : ∃ w, getValueOf s3 id = some w ∧ w.metadata.active = false := by
      have h3som : (getValueOf s3 id).isSome = true := by
        rw [(hE13 id).1, hv1]
        rfl
      obtain ⟨w, hw⟩ := Option.isSome_iff_exists.mp h3som
      refine ⟨w, hw, ?_⟩
      exact ((hE13 id).2 _ w hv1 hw).2.1 rfl
    have hdead_id : deadAt (modifyValue s3 id (fun w => { w with children := [] })) id = true := by
      obtain ⟨w, hw, hwa⟩ := hact3
      unfold deadAt
      rw [getValueOf_modifyValue, if_pos rfl, hw]
      simp [hwa]
    have hreach_dead : ∀ d, Reach st0 id d →
        deadAt (modifyValue s3 id (fun w => { w with children := [] })) d = true := by
      intro d hr
      cases hr with
      | refl => exact hdead_id
      | @step _ c _ hc hrc =>
        have hc0 : c ∈ v0.children := by
          unfold childrenOf at hc
          rw [hv0] at hc
          simpa using hc
        rcases hch with hch' | hch'
        · have hcv : c ∈ v.children := by
            rw [hch']
            exact hc0
          exact evol_dead hE3 (hdf c hcv d hrc)
        · have hempty : childrenOf s id = [] := by
            unfold childrenOf
            rw [hv]
            simp [hch']
          have hne : childrenOf st0 id ≠ [] := by
            unfold childrenOf
            rw [hv0]
            intro hn
            simp only [Option.map_some', Option.getD_some] at hn
            rw [hn] at hc0
            cases hc0
          have hds : deadAt s d = true := hD id hid hempty hne d (Reach.step hc hrc)
          exact evol_dead (evol_trans hE1 (evol_trans hE2 (evol_trans hEf hE3))) hds
    have hD' : DClosed st0 (modifyValue s3 id (fun w => { w with children := [] })) := by
      intro x hx h1 h0 d hr
      by_cases hxid : x = id
      · subst hxid
        exact hreach_dead d hr
      · have h1' : childrenOf s3 x = [] := by
          unfold childrenOf at h1 ⊢
          rw [getValueOf_modifyValue, if_neg hxid] at h1
          exact h1
        exact evol_dead hE3 (hDf x hx h1' h0 d hr)
    exact ⟨evol_trans hE1 (evol_trans hE2 (evol_trans hEf hE3)), hD', hreach_dead⟩

theorem modifyValue_index (st : DomState) (i : Nat) (f : NodeValue → NodeValue) :
    (modifyValue st i f).index = st.index := by
  unfold modifyValue
  cases h : getValueOf st i <;> rfl

theorem removeFuel_index : ∀ (fuel : Nat) (s : DomState) (id : Nat) (src : Source),
    (removeFuel fuel s id src).index = s.index := by
  intro fuel
  induction fuel with
  | zero => intro s id src; rfl
  | succ f ih =>
    intro s id src
    rw [removeFuel]
    cases hv : getValueOf s id with
    | none => rfl
    | some v =>
      simp only []
      rw [modifyValue_index]
      have hfold : ∀ (cs : List Nat) (sA : DomState),
          (cs.foldl (fun sAcc c => removeFuel f sAcc c src) sA).index = sA.index := by
        intro cs
        induction cs with
        | nil => intro sA; rfl
        | cons c rest ihc => intro sA; rw [List.foldl_cons, ihc, ih]
      rw [hfold, track_index]
      rfl

theorem history_setValue (st : DomState) (i : Nat) (v : NodeValue) (j : Nat) :
    history (setValue st i v) j = history st j := rfl

theorem history_modifyValue (st : DomState) (i : Nat) (f : NodeValue → NodeValue) (j : Nat) :
    history (modifyValue st i f) j = history st j := by
  unfold modifyValue
  cases h : getValueOf st i <;> rfl

theorem history_pushChange (st : DomState) (id : Nat) (c : ChangeRec) (j : Nat) :
    ∃ l, history { st with changes := pushChange st.changes id c } j = history st j ++ l := by
  unfold history pushChange
  by_cases hj : j = id
  · subst hj
    cases h : lookupA st.changes j
    · exact ⟨[c], by simp [h]⟩
    · exact ⟨[c], by simp [h]⟩
  · cases h : lookupA st.changes id
    · exact ⟨[], by simp [h, hj]⟩
    · exact ⟨[], by simp [h, hj]⟩

theorem history_eq_of_changes {st1 st2 : DomState} (h : st1.changes = st2.changes) (j : Nat) :
    history st1 j = history st2 j := by
  unfold history
  rw [h]

theorem trackHistoryStep_history (st : DomState) (id : Nat) (src : Source) (j : Nat) :
    ∃ l, history (trackHistoryStep st id src) j = history st j ++ l := by
  unfold trackHistoryStep
  split
  · split
    · exact history_pushChange st id _ j
    · exact ⟨[], by simp⟩
  · exact ⟨[], by simp⟩

theorem track_history (st : DomState) (id : Nat) (src : Source) (ch : Bool) (j : Nat) :
    ∃ l, history (track st id src ch) j = history st j ++ l := by
  unfold track
  obtain ⟨l, hl⟩ := trackHistoryStep_history (trackQueue st id src ch) id src j
  refine ⟨l, ?_⟩
  rw [hl, history_eq_of_changes (trackQueue_changes st id src ch) j]

theorem removeFuel_history : ∀ (fuel : Nat) (s : DomState) (id : Nat) (src : Source) (j : Nat),
    ∃ l, history (removeFuel fuel s id src) j = history s j ++ l := by
  intro fuel
  induction fuel with
  | zero => intro s id src j; exact ⟨[], (List.append_nil (history s j)).symm⟩
  | succ f ih =>
    intro s id src j
    rw [removeFuel]
    cases hv : getValueOf s id with
    | none => exact ⟨[], (List.append_nil (history s j)).symm⟩
    | some v =>
      simp only []
      rw [history_modifyValue]
      have hfold : ∀ (cs : List Nat) (sA : DomState),
          ∃ l, history (cs.foldl (fun sAcc c => removeFuel f sAcc c src) sA) j =
            history sA j ++ l := by
        intro cs
        induction cs with
        | nil => intro sA; exact ⟨[], by simp⟩
        | cons cc rest ihc =>
          intro sA
          obtain ⟨l1, h1⟩ := ih sA cc src j
          obtain ⟨l2, h2⟩ := ihc (removeFuel f sA cc src)
          exact ⟨l1 ++ l2, by rw [List.foldl_cons, h2, h1, List.append_assoc]⟩
      obtain ⟨l1, h1⟩ := track_history (setValue s id
        { v with metadata := { v.metadata with active := false }, parent := none }) id src true j
      obtain ⟨l2, h2⟩ := hfold v.children (track (setValue s id
        { v with metadata := { v.metadata with active := false }, parent := none }) id src)
      refine ⟨l1 ++ l2, ?_⟩
      rw [h2, h1, history_setValue, List.append_assoc]

/-- Discharges `WfRank` for a concrete registry by checking every stored
binding. -/
theorem wfRank_of_entries (st : DomState) (rank : Nat → Nat)
    (h : ∀ p ∈ st.values,
      ∀ c ∈ p.2.children, rank c < rank p.1 ∧ (getValueOf st c).isSome = true) :
    WfRank st rank := by
  intro i v hv
  exact h (i, v) (lookupA_mem hv)

end C7

namespace Claims

open ClarityAux ClarityDom

open ClarityAux ClarityDom C7

/-- C7: removing a registered node of a registry whose child graph is acyclic
(witnessed by any rank function decreasing along child edges — exactly the
condition under which the unbounded JS recursion terminates; reparented
registries with lower ids under newer parents qualify) deactivates and
empties the child list of the node and of every node in its descendant
subtree; the registry keeps every entry (no id freed, allocation counter
untouched) and the per-id history only grows, so it stays queryable. -/
theorem claim7_remove_subtree (st : DomState) (rank : Nat → Nat) (id fuel : Nat) (src : Source)
    (hwf : C7.WfRank st rank) (hid : (getValueOf st id).isSome = true)
    (hfuel : rank id < fuel) :
    (∀ d ∈ C7.descList fuel st id, C7.deadAt (removeFuel fuel st id src) d = true) ∧
    (removeFuel fuel st id src).index = st.index ∧
    (∀ i, (getValueOf (removeFuel fuel st id src) i).isSome = (getValueOf st i).isSome) ∧
    (∀ i, ∃ l, history (removeFuel fuel st id src) i = history st i ++ l) := by
  obtain ⟨hE, hD, hdead⟩ := C7.removeFuel_main rank st hwf fuel st id src
    (C7.evol_refl st) (C7.dclosed_refl st) hid hfuel
  refine ⟨?_, C7.removeFuel_index fuel st id src, fun i => (hE i).1,
    fun i => C7.removeFuel_history fuel st id src i⟩
  intro d hd
  exact hdead d (C7.descList_reach st fuel id d hd)

/-- Witness for C7: removing node `3` of the reparented registry `c7state`
(descendants `2` and `4`, with the child edge `3 → 2` running against id
order) deactivates and empties the whole subtree and keeps the id counter. -/
theorem claim7_witness :
    (∀ d ∈ C7.descList 3 c7state 3,
      C7.deadAt (removeFuel 3 c7state 3 Source.childListRemove) d = true) ∧
    (removeFuel 3 c7state 3 Source.childListRemove).index = c7state.index :=
  ⟨(claim7_remove_subtree c7state c7rank 3 3 Source.childListRemove
      (C7.wfRank_of_entries c7state c7rank (by decide)) (by decide) (by decide)).1,
   (claim7_remove_subtree c7state c7rank 3 3 Source.childListRemove
      (C7.wfRank_of_entries c7state c7rank (by decide)) (by decide) (by decide)).2.1⟩

end Claims
